import Mathlib

/-!
# docdb-repro: producer and change-stream consumer

A shallow embedding of `cmd/main.go`.  The two `Run` methods talk to three
external collaborators: the clock (`time.Now`), the document store (the mongo
driver) and the logger (zerolog).  They are modelled as follows.

* The clock is a function from the ordinal of the reading to the instant read.
* The store is an explicit list of documents; whether a given call fails, and
  which identity an insert is given, is read from an environment.  Every store
  call of a run is issued at most once (record `i`, update `j` of record `i`),
  so the environment is indexed by the operation.  A failed call has no effect
  on the collection.
* Every observable action is appended to a trace, in program order.
* `logger.Fatal()...Msg(m)` writes the entry and then calls `os.Exit(1)`
  (zerolog), which ends the process without running deferred calls (Go).
-/

namespace DocdbRepro

/-- The Go struct `person`; a `time.Time` is modelled as an integer instant. -/
structure person where
  FirstName : String
  LastName : String
  Created : Int
  Modified : Int
deriving DecidableEq, Repr

/-- A document of the `people` collection: a marshalled `person` (the driver
lower-cases the field names) together with its `_id`. -/
structure Document where
  id : Nat
  firstname : String
  lastname : String
  created : Int
  modified : Int
deriving DecidableEq, Repr

/-- The flags of `runProducerCmd` (the connection string plays no role).  A Go
`int` or `int64` is an integer of the 64-bit range; the loop counters `i` and
`j` stay below `Inserts` and `Updates`, so `i + 1` and `j + 1` never wrap
around, and a count that is zero or negative means no iteration. -/
structure runProducerCmd where
  Inserts : Int
  Updates : Int
  DelayBetweenInserts : Int
  DelayBetweenUpdates : Int
deriving DecidableEq, Repr

/-- A value attached to a log entry. -/
inductive Val where
  | int (n : Int)
  | str (s : String)
  | oid (id : Nat)
  | doc (fields : List (String × String))
deriving DecidableEq, Repr

/-- The observable actions of a run. -/
inductive Effect where
  /-- An entry at info level: `logger.Info()...Msg(msg)`. -/
  | info (msg : String) (fields : List (String × Val))
  /-- An entry at fatal level followed by `os.Exit(1)`. -/
  | fatal (msg : String)
  | connect (ok : Bool)
  | disconnect (ok : Bool)
  | sleep (nanos : Int)
  /-- The call `people.InsertOne(ctx, p)` and the identity it returned (`none`: error). -/
  | insertOne (p : person) (insertedID : Option Nat)
  /-- The call `people.FindOneAndUpdate` filtered by `_id`, `$set`-ting `lastname` and `modified`. -/
  | findOneAndUpdate (id : Nat) (lastname : String) (modified : Int) (ok : Bool)
  | watch (ok : Bool)
  /-- The call `changeStream.Next(ctx)` and the event it made current (`none`: it returned false). -/
  | next (current : Option (List Nat))
  | close (ok : Bool)
deriving DecidableEq, Repr

/-- What the outside world answers during a run. -/
structure Env where
  /-- The instant returned by the `k`-th call of `time.Now()`. -/
  now : Nat → Int
  connectErr : Bool
  disconnectErr : Bool
  /-- Whether the insert of record `i` fails. -/
  insertErr : Nat → Bool
  /-- The identity the store gives to record `i`. -/
  insertedID : Nat → Nat
  /-- Whether update `j` (zero-based) of record `i` fails. -/
  updateErr : Nat → Nat → Bool
  watchErr : Bool
  /-- The events the change-stream cursor yields before `Next` returns false. -/
  events : List (List Nat)
  /-- Whether `Next` returned false because of an error (`changeStream.Err() != nil`). -/
  streamErr : Bool
  /-- The function `bson.Unmarshal` into a `map[string]interface{}`. -/
  unmarshal : List Nat → Option (List (String × String))
  closeErr : Bool

/-- The state threaded through a run. -/
structure World where
  /-- Number of clock readings taken so far. -/
  ticks : Nat
  /-- Contents of the collection. -/
  people : List Document
  trace : List Effect
deriving DecidableEq, Repr

/-- How a piece of code ends: control goes on (`done`), or the process has
exited through `logger.Fatal` (`exited`). -/
inductive Outcome where
  | done (w : World)
  | exited (w : World)
deriving DecidableEq, Repr

def Outcome.world : Outcome → World
  | .done w => w
  | .exited w => w

def Outcome.isExited : Outcome → Bool
  | .done _ => false
  | .exited _ => true

def World.emit (w : World) (e : Effect) : World :=
  { w with trace := w.trace ++ [e] }

/-- The call `cmdContext.logger.Fatal().Err(err).Msg(msg)`. -/
def fatal (w : World) (msg : String) : Outcome :=
  .exited (w.emit (.fatal msg))

/-- Wrap-around of a Go `int64`. -/
def wrapInt64 (x : Int) : Int :=
  (x + 2 ^ 63) % 2 ^ 64 - 2 ^ 63

/-- The expression `time.Duration(ms) * time.Millisecond`, in nanoseconds. -/
def millis (ms : Int) : Int :=
  wrapInt64 (ms * 1000000)

/-- The store's `FindOneAndUpdate` with filter `_id = id`, patch
`$set {lastname, modified}` and `ReturnDocument(After)`: the first matching
document is patched and returned; `none` stands for `ErrNoDocuments`. -/
def findOneAndUpdate (id : Nat) (lastname : String) (modified : Int) :
    List Document → Option (List Document × Document)
  | [] => none
  | d :: ds =>
    if d.id = id then
      let u : Document := { d with lastname := lastname, modified := modified }
      some (u :: ds, u)
    else
      match findOneAndUpdate id lastname modified ds with
      | none => none
      | some (ds', u) => some (d :: ds', u)

/-- The inner loop `for j := 0; j < cmdProducer.Updates; j++` of
`runProducerCmd.Run`, for record `i` whose insert returned `id`; the first
argument is the number of iterations left, `Updates - j`. -/
def updateLoop (env : Env) (cmd : runProducerCmd) (i id : Nat) :
    Nat → Nat → World → Outcome
  | 0, _, w => .done w
  | n + 1, j, w =>
    let w1 := w.emit (.sleep (millis cmd.DelayBetweenUpdates))
    let lastname := "LastName" ++ toString (j + 1)
    let modified := env.now w1.ticks
    let w2 : World := { w1 with ticks := w1.ticks + 1 }
    let res := if env.updateErr i j then none
      else findOneAndUpdate id lastname modified w2.people
    match res with
    | none =>
      fatal (w2.emit (.findOneAndUpdate id lastname modified false)) "error performing update"
    | some (people, updatedPerson) =>
      let w3 := ({ w2 with people := people } : World).emit
        (.findOneAndUpdate id lastname modified true)
      let w4 := w3.emit (.info "record updated"
        [("count", .int (j + 1)), ("LastName", .str updatedPerson.lastname)])
      updateLoop env cmd i id n (j + 1) w4

/-- The struct literal `&person{...}` built for record `i`, when `c` clock
readings were taken before: Go evaluates the two `time.Now()` calls in source
order, `Created` first and `Modified` second. -/
def newPerson (env : Env) (i c : Nat) : person :=
  { FirstName := "FirstName" ++ toString (i + 1)
    LastName := "LastName"
    Created := env.now c
    Modified := env.now (c + 1) }

/-- The outer loop `for i := 0; i < cmdProducer.Inserts; i++` of
`runProducerCmd.Run`; the first argument is the number of iterations left,
`Inserts - i`. -/
def insertLoop (env : Env) (cmd : runProducerCmd) :
    Nat → Nat → World → Outcome
  | 0, _, w => .done w
  | n + 1, i, w =>
    let w1 := w.emit (.sleep (millis cmd.DelayBetweenInserts))
    let p := newPerson env i w1.ticks
    let w2 : World := { w1 with ticks := w1.ticks + 2 }
    if env.insertErr i then
      fatal (w2.emit (.insertOne p none)) "error inserting records"
    else
      let id := env.insertedID i
      let d : Document :=
        { id := id, firstname := p.FirstName, lastname := p.LastName
          created := p.Created, modified := p.Modified }
      let w3 := ({ w2 with people := w2.people ++ [d] } : World).emit (.insertOne p (some id))
      let w4 := w3.emit (.info "record inserted" [("InsertedID", .oid id)])
      match updateLoop env cmd i id cmd.Updates.toNat 0 w4 with
      | .exited w5 => .exited w5
      | .done w5 => insertLoop env cmd n (i + 1) w5

/-- The deferred `client.Disconnect(ctx)`, run when `Run` returns. -/
def deferDisconnect (env : Env) (w : World) : Outcome :=
  if env.disconnectErr then
    fatal (w.emit (.disconnect false)) "error closing connection"
  else
    .done (w.emit (.disconnect true))

/-- The method `runProducerCmd.Run`, started in world `w`.  The result `done`
means that `Run` returned `nil`. -/
def runProducer (env : Env) (cmd : runProducerCmd) (w : World) : Outcome :=
  let w1 := w.emit (.info "running producer"
    [("Inserts", .int cmd.Inserts), ("Updates", .int cmd.Updates)])
  if env.connectErr then
    fatal (w1.emit (.connect false)) "error connecting to the database"
  else
    let w2 := w1.emit (.connect true)
    match insertLoop env cmd cmd.Inserts.toNat 0 w2 with
    | .exited w3 => .exited w3
    | .done w3 => deferDisconnect env w3

/-- The loop `for changeStream.Next(ctx)` of `runConsumerCmd.Run`, over the
events the cursor has yet to yield. -/
def consumeLoop (env : Env) : List (List Nat) → World → Outcome
  | [], w => .done (w.emit (.next none))
  | ev :: rest, w =>
    let w1 := w.emit (.next (some ev))
    match env.unmarshal ev with
    | none => fatal w1 "error decoding change-stream record"
    | some record =>
      consumeLoop env rest (w1.emit (.info "change stream record" [("record", .doc record)]))

/-- The deferred `changeStream.Close(ctx)`. -/
def deferClose (env : Env) (w : World) : Outcome :=
  if env.closeErr then
    fatal (w.emit (.close false)) "error closing change stream"
  else
    .done (w.emit (.close true))

/-- The method `runConsumerCmd.Run`, started in world `w`.  Deferred calls run
in reverse order of registration: `Close`, then `Disconnect`. -/
def runConsumer (env : Env) (w : World) : Outcome :=
  let w1 := w.emit (.info "running consumer" [])
  if env.connectErr then
    fatal (w1.emit (.connect false)) "error connecting to the database"
  else
    let w2 := w1.emit (.connect true)
    if env.watchErr then
      fatal (w2.emit (.watch false)) "error getting DB change-stream"
    else
      let w3 := (w2.emit (.watch true)).emit (.info "waiting for changes" [])
      match consumeLoop env env.events w3 with
      | .exited w4 => .exited w4
      | .done w4 =>
        match deferClose env w4 with
        | .exited w5 => .exited w5
        | .done w5 => deferDisconnect env w5

/-- The world before a run: no clock reading taken, an empty collection. -/
def World.init : World :=
  { ticks := 0, people := [], trace := [] }

/-- An environment in which nothing fails: the clock returns the ordinal of
the reading and record `i` is given identity `100 + i`. -/
def Env.ideal : Env :=
  { now := fun k => (k : Int)
    connectErr := false
    disconnectErr := false
    insertErr := fun _ => false
    insertedID := fun i => 100 + i
    updateErr := fun _ _ => false
    watchErr := false
    events := []
    streamErr := false
    unmarshal := fun raw => some (raw.map (fun b => ("k", toString b)))
    closeErr := false }

/-! ## Observations on a trace -/

/-- A store write without its timestamps. -/
inductive Write where
  | insert (firstName lastName : String) (insertedID : Option Nat)
  | update (id : Nat) (lastname : String) (ok : Bool)
deriving DecidableEq, Repr

/-- The store write a trace entry stands for, if any. -/
def Effect.toWrite : Effect → Option Write
  | .insertOne p r => some (.insert p.FirstName p.LastName r)
  | .findOneAndUpdate id l _ ok => some (.update id l ok)
  | _ => none

/-- The store writes of a trace, in the order they were issued. -/
def writes (tr : List Effect) : List Write :=
  tr.filterMap Effect.toWrite

/-- The trace entries of update `j` of a record with identity `id`, when it
succeeds and `k` clock readings were taken before. -/
def updateTrace (env : Env) (cmd : runProducerCmd) (id k j : Nat) : List Effect :=
  [.sleep (millis cmd.DelayBetweenUpdates),
   .findOneAndUpdate id ("LastName" ++ toString (j + 1)) (env.now k) true,
   .info "record updated"
     [("count", .int (j + 1)), ("LastName", .str ("LastName" ++ toString (j + 1)))]]

/-- The trace entries of record `i` and its updates, when all of them succeed
and `c` clock readings were taken before. -/
def recordTrace (env : Env) (cmd : runProducerCmd) (i c : Nat) : List Effect :=
  [.sleep (millis cmd.DelayBetweenInserts),
   .insertOne (newPerson env i c) (some (env.insertedID i)),
   .info "record inserted" [("InsertedID", .oid (env.insertedID i))]] ++
  (List.range cmd.Updates.toNat).flatMap
    (fun j => updateTrace env cmd (env.insertedID i) (c + 2 + j) j)

/-- The identities of the documents of a collection. -/
def ids (ds : List Document) : List Nat :=
  ds.map (fun d => d.id)

/-- The entries with which a producer run that connects starts. -/
def producerHead (cmd : runProducerCmd) : List Effect :=
  [.info "running producer" [("Inserts", .int cmd.Inserts), ("Updates", .int cmd.Updates)],
   .connect true]

/-- The writes of record `i` and its `M` updates, when all of them succeed. -/
def recordWrites (env : Env) (M i : Nat) : List Write :=
  .insert ("FirstName" ++ toString (i + 1)) "LastName" (some (env.insertedID i)) ::
    (List.range M).map
      (fun j => .update (env.insertedID i) ("LastName" ++ toString (j + 1)) true)

/-- The environment `Env.ideal`, except that the insert of record `k` fails. -/
def Env.insertFailsAt (k : Nat) : Env :=
  { Env.ideal with insertErr := fun i => i == k }

/-- The environment `Env.ideal`, except that update `j` (zero-based) of record
`i` fails. -/
def Env.updateFailsAt (i j : Nat) : Env :=
  { Env.ideal with updateErr := fun a b => a == i && b == j }

/-- The persons handed to `InsertOne` in a trace, with the identity returned. -/
def inserts (tr : List Effect) : List (person × Option Nat) :=
  tr.filterMap (fun e => match e with
    | .insertOne p r => some (p, r)
    | _ => none)

/-- The decoded records of the "change stream record" log entries of a trace. -/
def records (tr : List Effect) : List (List (String × String)) :=
  tr.filterMap (fun e => match e with
    | .info "change stream record" [("record", .doc r)] => some r
    | _ => none)

/-- The results of the calls of `changeStream.Next` in a trace. -/
def fetched (tr : List Effect) : List (Option (List Nat)) :=
  tr.filterMap (fun e => match e with
    | .next c => some c
    | _ => none)

/-- The trace entries of one turn of the consumer loop on an event that decodes. -/
def eventTrace (env : Env) (ev : List Nat) : List Effect :=
  [.next (some ev),
   .info "change stream record" [("record", .doc ((env.unmarshal ev).getD []))]]

/-- The entries with which a consumer run that connects and subscribes starts. -/
def consumerHead : List Effect :=
  [.info "running consumer" [], .connect true, .watch true, .info "waiting for changes" []]

/-- The environment `Env.ideal` with a cursor that yields three events, the
second of which does not decode. -/
def Env.badSecondEvent : Env :=
  { Env.ideal with
    events := [[1], [2], [3]]
    unmarshal := fun raw => if raw = [2] then none else some (raw.map (fun b => ("k", toString b))) }

/-- The environment `Env.ideal` with a cursor that yields two events. -/
def Env.twoEvents : Env :=
  { Env.ideal with events := [[1], [2]] }

/-- The environment `Env.ideal` with a cursor that yields one event and then
stops on an error: `Next` returns false and `changeStream.Err()` is not nil. -/
def Env.brokenStream : Env :=
  { Env.ideal with events := [[1]], streamErr := true }

/-- The identity and the `modified` instant a trace entry writes to the store,
for a write that succeeds. -/
def Effect.written : Effect → Option (Nat × Int)
  | .insertOne p (some id) => some (id, p.Modified)
  | .findOneAndUpdate id _ m true => some (id, m)
  | _ => none

/-- The `modified` instants written by a trace, in the order they were written. -/
def allModified (tr : List Effect) : List Int :=
  (tr.filterMap Effect.written).map Prod.snd

/-- The `modified` instants written by a trace for the identity `id`: the one
of the inserted document, then the ones of the updates filtered by `id`. -/
def modifiedOf (id : Nat) (tr : List Effect) : List Int :=
  ((tr.filterMap Effect.written).filter (fun x => x.1 = id)).map Prod.snd

/-- What holds of a world under a clock that never goes back: the instants
written so far are in non-decreasing order and none is later than a reading
still to come. -/
def Ordered (env : Env) (w : World) : Prop :=
  (allModified w.trace).Pairwise (fun a b => a ≤ b) ∧
    ∀ m ∈ allModified w.trace, ∀ k, w.ticks ≤ k → m ≤ env.now k

/-- The document of record `i` after its `M` updates, when `c` clock readings
were taken before its insert. -/
def finalDoc (env : Env) (M i c : Nat) : Document :=
  { id := env.insertedID i
    firstname := "FirstName" ++ toString (i + 1)
    lastname := if M = 0 then "LastName" else "LastName" ++ toString M
    created := env.now c
    modified := env.now (c + 1 + M) }

/-- Whether a write is an update filtered by the identity `id`. -/
def Write.isUpdateOf (id : Nat) : Write → Bool
  | .update k _ _ => k = id
  | .insert _ _ _ => false

/-- Whether a write is an update. -/
def Write.isUpdate : Write → Bool
  | .update _ _ _ => true
  | .insert _ _ _ => false

/-! ## The store -/

theorem findOneAndUpdate_of_mem (id : Nat) (l : String) (m : Int) :
    ∀ ds : List Document, id ∈ ids ds →
      ∃ ds' u, findOneAndUpdate id l m ds = some (ds', u) ∧ ids ds' = ids ds ∧ u.lastname = l
  | [], h => by simp [ids] at h
  | d :: ds, h => by
    by_cases hd : d.id = id
    · exact ⟨{ d with lastname := l, modified := m } :: ds, { d with lastname := l, modified := m },
        by simp [findOneAndUpdate, hd], by simp [ids], rfl⟩
    · have h' : id ∈ ids ds := by
        simp only [ids, List.map_cons, List.mem_cons] at h
        rcases h with h | h
        · exact absurd h.symm hd
        · exact h
      obtain ⟨ds', u, h1, h2, h3⟩ := findOneAndUpdate_of_mem id l m ds h'
      refine ⟨d :: ds', u, ?_, ?_, h3⟩
      · simp [findOneAndUpdate, hd, h1]
      · simp only [ids, List.map_cons] at h2 ⊢
        rw [h2]

/-! ## The update loop -/

theorem flatMap_range_succ {α : Type} (f : Nat → List α) (n : Nat) :
    (List.range (n + 1)).flatMap f = f 0 ++ (List.range n).flatMap (fun t => f (t + 1)) := by
  rw [List.range_succ_eq_map, List.flatMap_cons, List.flatMap_map]

/-- A run of `n` updates none of which fails. -/
theorem updateLoop_ok (env : Env) (cmd : runProducerCmd) (i id : Nat) :
    ∀ (n j : Nat) (w : World),
      (∀ t, t < n → env.updateErr i (j + t) = false) → id ∈ ids w.people →
      ∃ w', updateLoop env cmd i id n j w = .done w' ∧
        w'.ticks = w.ticks + n ∧ ids w'.people = ids w.people ∧
        w'.trace = w.trace ++
          (List.range n).flatMap (fun t => updateTrace env cmd id (w.ticks + t) (j + t))
  | 0, j, w, _, _ => ⟨w, rfl, rfl, rfl, by simp⟩
  | n + 1, j, w, hu, hid => by
    have h0 : env.updateErr i j = false := by simpa using hu 0 (Nat.succ_pos n)
    obtain ⟨ds', u, h1, h2, h3⟩ :=
      findOneAndUpdate_of_mem id ("LastName" ++ toString (j + 1)) (env.now w.ticks) w.people hid
    obtain ⟨w', e1, e2, e3, e4⟩ := updateLoop_ok env cmd i id n (j + 1)
      ((({ ticks := w.ticks + 1, people := ds',
           trace := w.trace ++ [.sleep (millis cmd.DelayBetweenUpdates)] } : World).emit
          (.findOneAndUpdate id ("LastName" ++ toString (j + 1)) (env.now w.ticks) true)).emit
        (.info "record updated"
          [("count", .int (j + 1)), ("LastName", .str u.lastname)]))
      (fun t ht => by
        have := hu (t + 1) (Nat.succ_lt_succ ht)
        rwa [show j + 1 + t = j + (t + 1) by omega])
      (by simpa [World.emit, h2] using hid)
    refine ⟨w', ?_, ?_, ?_, ?_⟩
    · simp only [updateLoop, World.emit, h0, h1]
      simpa [World.emit] using e1
    · rw [e2]; simp [World.emit]; omega
    · rw [e3]; simp [World.emit, h2]
    · have hf : (fun t => updateTrace env cmd id (w.ticks + 1 + t) (j + 1 + t)) =
          (fun t => updateTrace env cmd id (w.ticks + (t + 1)) (j + (t + 1))) := by
        funext t
        rw [show w.ticks + 1 + t = w.ticks + (t + 1) by omega,
          show j + 1 + t = j + (t + 1) by omega]
      rw [e4, flatMap_range_succ, ← hf]
      simp [World.emit, updateTrace, h3]

/-- The update loop can be cut at any iteration. -/
theorem updateLoop_add (env : Env) (cmd : runProducerCmd) (i id : Nat) :
    ∀ (a b j : Nat) (w : World),
      updateLoop env cmd i id (a + b) j w =
        match updateLoop env cmd i id a j w with
        | .exited w' => .exited w'
        | .done w' => updateLoop env cmd i id b (j + a) w'
  | 0, b, j, w => by simp [updateLoop]
  | a + 1, b, j, w => by
    rw [show a + 1 + b = (a + b) + 1 by omega]
    simp only [updateLoop]
    split
    · simp [fatal]
    · rw [updateLoop_add env cmd i id a b (j + 1)]
      rw [show j + 1 + a = j + (a + 1) by omega]

/-- The update that fails ends the process. -/
theorem updateLoop_fail (env : Env) (cmd : runProducerCmd) (i id n j : Nat) (w : World)
    (h : env.updateErr i j = true) :
    updateLoop env cmd i id (n + 1) j w = .exited
      { ticks := w.ticks + 1, people := w.people,
        trace := w.trace ++
          [.sleep (millis cmd.DelayBetweenUpdates),
           .findOneAndUpdate id ("LastName" ++ toString (j + 1)) (env.now w.ticks) false,
           .fatal "error performing update"] } := by
  simp [updateLoop, h, fatal, World.emit]

/-! ## The insert loop -/

/-- A run of `n` records none of whose store calls fails. -/
theorem insertLoop_ok (env : Env) (cmd : runProducerCmd) :
    ∀ (n i : Nat) (w : World),
      (∀ t, t < n → env.insertErr (i + t) = false) →
      (∀ t j, t < n → j < cmd.Updates.toNat → env.updateErr (i + t) j = false) →
      ∃ w', insertLoop env cmd n i w = .done w' ∧
        w'.ticks = w.ticks + n * (cmd.Updates.toNat + 2) ∧
        ids w'.people = ids w.people ++ (List.range n).map (fun t => env.insertedID (i + t)) ∧
        w'.trace = w.trace ++
          (List.range n).flatMap
            (fun t => recordTrace env cmd (i + t) (w.ticks + t * (cmd.Updates.toNat + 2)))
  | 0, i, w, _, _ => ⟨w, rfl, by simp, by simp, by simp⟩
  | n + 1, i, w, hi, hu => by
    have h0 : env.insertErr i = false := by simpa using hi 0 (Nat.succ_pos n)
    obtain ⟨w5, u1, u2, u3, u4⟩ := updateLoop_ok env cmd i (env.insertedID i)
      cmd.Updates.toNat 0
      { ticks := w.ticks + 2
        people := w.people ++
          [{ id := env.insertedID i, firstname := (newPerson env i w.ticks).FirstName
             lastname := (newPerson env i w.ticks).LastName
             created := (newPerson env i w.ticks).Created
             modified := (newPerson env i w.ticks).Modified }]
        trace := w.trace ++
          [.sleep (millis cmd.DelayBetweenInserts),
           .insertOne (newPerson env i w.ticks) (some (env.insertedID i)),
           .info "record inserted" [("InsertedID", .oid (env.insertedID i))]] }
      (fun t ht => by simpa using hu 0 t (Nat.succ_pos n) ht)
      (by simp [ids])
    obtain ⟨w', e1, e2, e3, e4⟩ := insertLoop_ok env cmd n (i + 1) w5
      (fun t ht => by
        have := hi (t + 1) (Nat.succ_lt_succ ht)
        rwa [show i + 1 + t = i + (t + 1) by omega])
      (fun t j ht hj => by
        have := hu (t + 1) j (Nat.succ_lt_succ ht) hj
        rwa [show i + 1 + t = i + (t + 1) by omega])
    refine ⟨w', ?_, ?_, ?_, ?_⟩
    · simp only [insertLoop, World.emit, h0]
      simp only [List.append_assoc, List.cons_append, List.nil_append, Bool.false_eq_true,
        if_false, u1]
      exact e1
    · rw [e2, u2]; ring
    · rw [e3, u3, List.range_succ_eq_map]
      simp [ids, List.map_map, Function.comp_def, Nat.add_assoc, Nat.add_comm 1]
    · have hf : (fun t => recordTrace env cmd (i + 1 + t)
            (w5.ticks + t * (cmd.Updates.toNat + 2))) =
          (fun t => recordTrace env cmd (i + (t + 1))
            (w.ticks + (t + 1) * (cmd.Updates.toNat + 2))) := by
        funext t
        rw [show i + 1 + t = i + (t + 1) by omega, u2]
        congr 1
        ring
      rw [e4, u4, flatMap_range_succ, hf]
      simp [recordTrace]

/-- The insert loop can be cut at any iteration. -/
theorem insertLoop_add (env : Env) (cmd : runProducerCmd) :
    ∀ (a b i : Nat) (w : World),
      insertLoop env cmd (a + b) i w =
        match insertLoop env cmd a i w with
        | .exited w' => .exited w'
        | .done w' => insertLoop env cmd b (i + a) w'
  | 0, b, i, w => by simp [insertLoop]
  | a + 1, b, i, w => by
    rw [show a + 1 + b = (a + b) + 1 by omega]
    simp only [insertLoop]
    split
    · simp [fatal]
    · split
      · rfl
      · rw [insertLoop_add env cmd a b (i + 1)]
        rw [show i + 1 + a = i + (a + 1) by omega]

/-- The insert that fails ends the process. -/
theorem insertLoop_fail (env : Env) (cmd : runProducerCmd) (n i : Nat) (w : World)
    (h : env.insertErr i = true) :
    insertLoop env cmd (n + 1) i w = .exited
      { ticks := w.ticks + 2, people := w.people,
        trace := w.trace ++
          [.sleep (millis cmd.DelayBetweenInserts),
           .insertOne (newPerson env i w.ticks) none,
           .fatal "error inserting records"] } := by
  simp [insertLoop, h, fatal, World.emit]

theorem runProducer_eq (env : Env) (cmd : runProducerCmd) (h : env.connectErr = false) :
    runProducer env cmd World.init =
      match insertLoop env cmd cmd.Inserts.toNat 0
          { ticks := 0, people := [], trace := producerHead cmd } with
      | .exited w => .exited w
      | .done w => deferDisconnect env w := by
  simp [runProducer, h, World.emit, World.init, producerHead]

/-- The producer run in which the first `k` records go through. -/
theorem insertLoop_prefix (env : Env) (cmd : runProducerCmd) (k : Nat)
    (hi : ∀ i, i < k → env.insertErr i = false)
    (hu : ∀ i j, i < k → j < cmd.Updates.toNat → env.updateErr i j = false) :
    ∃ w, insertLoop env cmd k 0 { ticks := 0, people := [], trace := producerHead cmd } =
        .done w ∧
      w.ticks = k * (cmd.Updates.toNat + 2) ∧
      ids w.people = (List.range k).map env.insertedID ∧
      w.trace = producerHead cmd ++
        (List.range k).flatMap
          (fun i => recordTrace env cmd i (i * (cmd.Updates.toNat + 2))) := by
  obtain ⟨w, e1, e2, e3, e4⟩ := insertLoop_ok env cmd k 0
    { ticks := 0, people := [], trace := producerHead cmd }
    (fun t ht => by simpa using hi t ht) (fun t j ht hj => by simpa using hu t j ht hj)
  refine ⟨w, e1, by simpa using e2, ?_, ?_⟩
  · rw [e3]; simp [ids]
  · rw [e4]; simp

theorem deferDisconnect_trace (env : Env) (w : World) :
    ∃ tail, (deferDisconnect env w).world.trace = w.trace ++ tail ∧
      (deferDisconnect env w).world.people = w.people ∧
      ∀ e ∈ tail, (∃ ok, e = .disconnect ok) ∨ (∃ m, e = .fatal m) := by
  unfold deferDisconnect
  by_cases h : env.disconnectErr
  · exact ⟨[.disconnect false, .fatal "error closing connection"],
      by simp [h, fatal, World.emit, Outcome.world], by simp [h, fatal, World.emit, Outcome.world],
      by simp⟩
  · exact ⟨[.disconnect true], by simp [h, World.emit, Outcome.world],
      by simp [h, World.emit, Outcome.world], by simp⟩

/-! ## Closed forms of a producer run -/

/-- The trace of a producer run none of whose store calls fails. -/
theorem runProducer_ok (env : Env) (cmd : runProducerCmd)
    (hc : env.connectErr = false)
    (hi : ∀ i, i < cmd.Inserts.toNat → env.insertErr i = false)
    (hu : ∀ i j, i < cmd.Inserts.toNat → j < cmd.Updates.toNat → env.updateErr i j = false) :
    ∃ tail, (runProducer env cmd World.init).world.trace =
        producerHead cmd ++
          (List.range cmd.Inserts.toNat).flatMap
            (fun i => recordTrace env cmd i (i * (cmd.Updates.toNat + 2))) ++ tail ∧
      ids (runProducer env cmd World.init).world.people =
        (List.range cmd.Inserts.toNat).map env.insertedID ∧
      ∀ e ∈ tail, (∃ ok, e = .disconnect ok) ∨ (∃ m, e = .fatal m) := by
  obtain ⟨w, e1, _, e3, e4⟩ := insertLoop_prefix env cmd cmd.Inserts.toNat hi hu
  obtain ⟨tail, t1, t2, t3⟩ := deferDisconnect_trace env w
  refine ⟨tail, ?_, ?_, t3⟩
  · rw [runProducer_eq env cmd hc, e1]
    simp only [t1, e4]
  · rw [runProducer_eq env cmd hc, e1]
    simp only [t2, e3]

/-- The producer run whose first failing store call is the insert of record `k`. -/
theorem runProducer_insertFail (env : Env) (cmd : runProducerCmd) (k : Nat)
    (hc : env.connectErr = false) (hk : k < cmd.Inserts.toNat)
    (hi : ∀ i, i < k → env.insertErr i = false)
    (hu : ∀ i j, i < k → j < cmd.Updates.toNat → env.updateErr i j = false)
    (hf : env.insertErr k = true) :
    ∃ w, runProducer env cmd World.init = .exited w ∧
      ids w.people = (List.range k).map env.insertedID ∧
      w.trace = producerHead cmd ++
        (List.range k).flatMap
          (fun i => recordTrace env cmd i (i * (cmd.Updates.toNat + 2))) ++
        [.sleep (millis cmd.DelayBetweenInserts),
         .insertOne (newPerson env k (k * (cmd.Updates.toNat + 2))) none,
         .fatal "error inserting records"] := by
  obtain ⟨w, e1, e2, e3, e4⟩ := insertLoop_prefix env cmd k hi hu
  obtain ⟨r, hr⟩ : ∃ r, cmd.Inserts.toNat = k + (r + 1) := ⟨cmd.Inserts.toNat - k - 1, by omega⟩
  refine ⟨{ ticks := w.ticks + 2, people := w.people,
             trace := w.trace ++
               [.sleep (millis cmd.DelayBetweenInserts),
                .insertOne (newPerson env k w.ticks) none,
                .fatal "error inserting records"] }, ?_, ?_, ?_⟩
  · rw [runProducer_eq env cmd hc, hr, insertLoop_add, e1]
    simp only [Nat.zero_add]
    rw [insertLoop_fail env cmd r k w hf]
  · exact e3
  · simp only [e4, e2]

/-- The producer run whose first failing store call is update `j` of record `i`. -/
theorem runProducer_updateFail (env : Env) (cmd : runProducerCmd) (i j : Nat)
    (hc : env.connectErr = false) (hN : i < cmd.Inserts.toNat) (hM : j < cmd.Updates.toNat)
    (hi : ∀ a, a ≤ i → env.insertErr a = false)
    (hu : ∀ a b, a < i → b < cmd.Updates.toNat → env.updateErr a b = false)
    (hv : ∀ b, b < j → env.updateErr i b = false)
    (hf : env.updateErr i j = true) :
    ∃ w, runProducer env cmd World.init = .exited w ∧
      ids w.people = (List.range (i + 1)).map env.insertedID ∧
      w.trace = producerHead cmd ++
        (List.range i).flatMap
          (fun a => recordTrace env cmd a (a * (cmd.Updates.toNat + 2))) ++
        [.sleep (millis cmd.DelayBetweenInserts),
         .insertOne (newPerson env i (i * (cmd.Updates.toNat + 2))) (some (env.insertedID i)),
         .info "record inserted" [("InsertedID", .oid (env.insertedID i))]] ++
        (List.range j).flatMap
          (fun b => updateTrace env cmd (env.insertedID i)
            (i * (cmd.Updates.toNat + 2) + 2 + b) b) ++
        [.sleep (millis cmd.DelayBetweenUpdates),
         .findOneAndUpdate (env.insertedID i) ("LastName" ++ toString (j + 1))
           (env.now (i * (cmd.Updates.toNat + 2) + 2 + j)) false,
         .fatal "error performing update"] := by
  obtain ⟨w, e1, e2, e3, e4⟩ := insertLoop_prefix env cmd i
    (fun a ha => hi a (Nat.le_of_lt ha)) hu
  obtain ⟨r, hr⟩ : ∃ r, cmd.Inserts.toNat = i + (r + 1) := ⟨cmd.Inserts.toNat - i - 1, by omega⟩
  obtain ⟨q, hq⟩ : ∃ q, cmd.Updates.toNat = j + (q + 1) := ⟨cmd.Updates.toNat - j - 1, by omega⟩
  have h0 : env.insertErr i = false := hi i (Nat.le_refl i)
  obtain ⟨w5, u1, u2, u3, u4⟩ := updateLoop_ok env cmd i (env.insertedID i) j 0
    { ticks := w.ticks + 2
      people := w.people ++
        [{ id := env.insertedID i, firstname := (newPerson env i w.ticks).FirstName
           lastname := (newPerson env i w.ticks).LastName
           created := (newPerson env i w.ticks).Created
           modified := (newPerson env i w.ticks).Modified }]
      trace := w.trace ++
        [.sleep (millis cmd.DelayBetweenInserts),
         .insertOne (newPerson env i w.ticks) (some (env.insertedID i)),
         .info "record inserted" [("InsertedID", .oid (env.insertedID i))]] }
    (fun t ht => by simpa using hv t ht)
    (by simp [ids])
  refine ⟨{ ticks := w5.ticks + 1, people := w5.people,
             trace := w5.trace ++
               [.sleep (millis cmd.DelayBetweenUpdates),
                .findOneAndUpdate (env.insertedID i) ("LastName" ++ toString (j + 1))
                  (env.now w5.ticks) false,
                .fatal "error performing update"] }, ?_, ?_, ?_⟩
  · rw [runProducer_eq env cmd hc, hr, insertLoop_add, e1]
    simp only [Nat.zero_add, insertLoop, World.emit, h0]
    simp only [List.append_assoc, List.cons_append, List.nil_append, Bool.false_eq_true,
      if_false]
    rw [hq, updateLoop_add, u1]
    simp only [Nat.zero_add]
    rw [updateLoop_fail env cmd i (env.insertedID i) q j w5 hf]
  · have e3' : w.people.map (fun d => d.id) = (List.range i).map env.insertedID := e3
    simp only [u3, List.range_succ, List.map_append, List.map_cons, List.map_nil]
    simp [ids, e3']
  · simp only [u4, u2, e4, e2, List.append_assoc, Nat.zero_add]

/-! ## The store writes of a run -/

theorem writes_append (a b : List Effect) : writes (a ++ b) = writes a ++ writes b := by
  simp [writes]

theorem writes_producerHead (cmd : runProducerCmd) : writes (producerHead cmd) = [] := by
  simp [writes, producerHead, Effect.toWrite]

theorem writes_tail (tail : List Effect)
    (h : ∀ e ∈ tail, (∃ ok, e = .disconnect ok) ∨ (∃ m, e = .fatal m)) : writes tail = [] := by
  simp only [writes, List.filterMap_eq_nil_iff]
  intro e he
  rcases h e he with ⟨ok, rfl⟩ | ⟨m, rfl⟩ <;> rfl

theorem writes_updates (env : Env) (cmd : runProducerCmd) (id c n : Nat) :
    writes ((List.range n).flatMap (fun j => updateTrace env cmd id (c + j) j)) =
      (List.range n).map (fun j => .update id ("LastName" ++ toString (j + 1)) true) := by
  simp only [writes, List.filterMap_flatMap, updateTrace, List.filterMap_cons, Effect.toWrite,
    List.filterMap_nil]
  induction (List.range n) with
  | nil => rfl
  | cons a l ih => simp [List.flatMap_cons, ih]

theorem writes_recordTrace (env : Env) (cmd : runProducerCmd) (i c : Nat) :
    writes (recordTrace env cmd i c) = recordWrites env cmd.Updates.toNat i := by
  unfold recordTrace
  rw [writes_append, writes_updates]
  simp [writes, Effect.toWrite, recordWrites, newPerson]

theorem writes_records (env : Env) (cmd : runProducerCmd) (k : Nat) :
    writes ((List.range k).flatMap
        (fun i => recordTrace env cmd i (i * (cmd.Updates.toNat + 2)))) =
      (List.range k).flatMap (recordWrites env cmd.Updates.toNat) := by
  unfold writes
  rw [List.filterMap_flatMap]
  exact List.flatMap_congr (fun i _ => writes_recordTrace env cmd i _)

theorem length_recordWrites (env : Env) (M i : Nat) : (recordWrites env M i).length = M + 1 := by
  simp [recordWrites]

theorem length_flatMap_recordWrites (env : Env) (M k : Nat) :
    ((List.range k).flatMap (recordWrites env M)).length = k * (M + 1) := by
  induction k with
  | zero => simp
  | succ k ih =>
    rw [List.range_succ, List.flatMap_append, List.length_append, ih]
    simp [length_recordWrites, Nat.succ_mul]

/-- The writes of a producer run none of whose store calls fails. -/
theorem writes_runProducer_ok (env : Env) (cmd : runProducerCmd)
    (hc : env.connectErr = false)
    (hi : ∀ i, i < cmd.Inserts.toNat → env.insertErr i = false)
    (hu : ∀ i j, i < cmd.Inserts.toNat → j < cmd.Updates.toNat → env.updateErr i j = false) :
    writes (runProducer env cmd World.init).world.trace =
      (List.range cmd.Inserts.toNat).flatMap (recordWrites env cmd.Updates.toNat) := by
  obtain ⟨tail, h1, _, h3⟩ := runProducer_ok env cmd hc hi hu
  rw [h1, writes_append, writes_append, writes_producerHead, writes_tail tail h3, writes_records]
  simp

theorem writes_nil_of_zero (env : Env) (cmd : runProducerCmd) (h : cmd.Inserts.toNat = 0) :
    writes (runProducer env cmd World.init).world.trace = [] := by
  by_cases hc : env.connectErr <;> by_cases hd : env.disconnectErr <;>
    simp [runProducer, h, insertLoop, deferDisconnect, fatal, World.emit, World.init,
      Outcome.world, writes, Effect.toWrite, hc, hd]

theorem inserts_of_writes (tr : List Effect) :
    (inserts tr).length =
      ((writes tr).filter (fun x => match x with
        | .insert _ _ _ => true
        | .update _ _ _ => false)).length := by
  induction tr with
  | nil => rfl
  | cons e tr ih =>
    cases e <;> simp_all [inserts, writes, Effect.toWrite]

theorem length_inserts_records (env : Env) (M k : Nat) :
    (((List.range k).flatMap (recordWrites env M)).filter (fun x => match x with
        | .insert _ _ _ => true
        | .update _ _ _ => false)).length = k := by
  induction k with
  | zero => simp
  | succ k ih =>
    rw [List.range_succ, List.flatMap_append, List.filter_append, List.length_append, ih]
    simp [recordWrites, List.filter_map, Function.comp_def]

theorem getLast_append_three {α : Type} (l : List α) (a b c : α) :
    (l ++ [a, b, c]).getLast? = some c := by
  rw [List.getLast?_append]
  rfl

/-! ## The consumer loop -/

/-- The consumer loop over events that decode, followed by further events. -/
theorem consumeLoop_append (env : Env) :
    ∀ (pre rest : List (List Nat)) (w : World),
      (∀ e ∈ pre, env.unmarshal e ≠ none) →
      consumeLoop env (pre ++ rest) w =
        consumeLoop env rest { w with trace := w.trace ++ pre.flatMap (eventTrace env) }
  | [], rest, w, _ => by simp
  | e :: pre, rest, w, h => by
    obtain ⟨r, hr⟩ : ∃ r, env.unmarshal e = some r :=
      Option.ne_none_iff_exists'.mp (h e (List.mem_cons_self e pre))
    rw [List.cons_append, consumeLoop]
    simp only [hr, World.emit]
    rw [consumeLoop_append env pre rest _ (fun x hx => h x (List.mem_cons_of_mem e hx))]
    simp [eventTrace, hr]

theorem records_append (a b : List Effect) : records (a ++ b) = records a ++ records b := by
  simp [records]

theorem fetched_append (a b : List Effect) : fetched (a ++ b) = fetched a ++ fetched b := by
  simp [fetched]

theorem records_events (env : Env) (pre : List (List Nat))
    (h : ∀ e ∈ pre, env.unmarshal e ≠ none) :
    (records (pre.flatMap (eventTrace env))).map some = pre.map env.unmarshal := by
  induction pre with
  | nil => rfl
  | cons e pre ih =>
    obtain ⟨r, hr⟩ : ∃ r, env.unmarshal e = some r :=
      Option.ne_none_iff_exists'.mp (h e (List.mem_cons_self e pre))
    rw [List.flatMap_cons, records_append, List.map_append,
      ih (fun x hx => h x (List.mem_cons_of_mem e hx))]
    simp [records, eventTrace, hr]

theorem fetched_events (env : Env) (pre : List (List Nat)) :
    fetched (pre.flatMap (eventTrace env)) = pre.map some := by
  induction pre with
  | nil => rfl
  | cons e pre ih =>
    rw [List.flatMap_cons, fetched_append, ih]
    simp [fetched, eventTrace]

/-- The consumer run whose events all decode. -/
theorem runConsumer_ok (env : Env) (hc : env.connectErr = false) (hw : env.watchErr = false)
    (h : ∀ e ∈ env.events, env.unmarshal e ≠ none) :
    ∃ tail, (runConsumer env World.init).world.trace =
        consumerHead ++ env.events.flatMap (eventTrace env) ++ [.next none] ++ tail ∧
      records tail = [] ∧ fetched tail = [] := by
  have hl := consumeLoop_append env env.events [] { ticks := 0, people := [], trace := consumerHead } h
  simp only [List.append_nil, consumeLoop, World.emit] at hl
  by_cases h1 : env.closeErr
  · refine ⟨[.close false, .fatal "error closing change stream"], ?_, rfl, rfl⟩
    simp [runConsumer, hc, hw, World.emit, World.init, deferClose, fatal, h1, Outcome.world]
    simp [consumerHead] at hl
    simp [hl, consumerHead]
  · by_cases h2 : env.disconnectErr
    · refine ⟨[.close true, .disconnect false, .fatal "error closing connection"], ?_, rfl, rfl⟩
      simp [runConsumer, hc, hw, World.emit, World.init, deferClose, deferDisconnect, fatal, h1,
        h2, Outcome.world]
      simp [consumerHead] at hl
      simp [hl, h2, Outcome.world, consumerHead]
    · refine ⟨[.close true, .disconnect true], ?_, rfl, rfl⟩
      simp [runConsumer, hc, hw, World.emit, World.init, deferClose, deferDisconnect, fatal, h1,
        h2, Outcome.world]
      simp [consumerHead] at hl
      simp [hl, h2, Outcome.world, consumerHead]

/-- The consumer run whose first event that does not decode is `bad`. -/
theorem runConsumer_decodeFail (env : Env) (pre post : List (List Nat)) (bad : List Nat)
    (hc : env.connectErr = false) (hw : env.watchErr = false)
    (he : env.events = pre ++ bad :: post)
    (h : ∀ e ∈ pre, env.unmarshal e ≠ none) (hb : env.unmarshal bad = none) :
    runConsumer env World.init = .exited
      { ticks := 0, people := [],
        trace := consumerHead ++ pre.flatMap (eventTrace env) ++
          [.next (some bad), .fatal "error decoding change-stream record"] } := by
  have hl := consumeLoop_append env pre (bad :: post)
    { ticks := 0, people := [], trace := consumerHead } h
  simp only [consumeLoop, World.emit, hb, fatal] at hl
  simp [runConsumer, hc, hw, World.emit, World.init, he]
  simp [consumerHead] at hl
  simp [hl, consumerHead]

/-- The consumer loop reads nothing of the environment but `unmarshal`. -/
theorem consumeLoop_congr (env env' : Env) (h : env'.unmarshal = env.unmarshal) :
    ∀ (evs : List (List Nat)) (w : World), consumeLoop env' evs w = consumeLoop env evs w
  | [], _ => rfl
  | ev :: rest, w => by
    simp only [consumeLoop, h]
    split
    · rfl
    · exact consumeLoop_congr env env' h rest _

/-! ## Order of the written instants -/

theorem ordered_skip (env : Env) (w w' : World) (h : Ordered env w)
    (ht : w.ticks ≤ w'.ticks) (hm : allModified w'.trace = allModified w.trace) :
    Ordered env w' := by
  unfold Ordered
  rw [hm]
  exact ⟨h.1, fun m hmem k hk => h.2 m hmem k (Nat.le_trans ht hk)⟩

theorem ordered_write (env : Env) (hmono : Monotone env.now) (w w' : World) (c : Nat)
    (h : Ordered env w) (hc : w.ticks ≤ c) (ht : c < w'.ticks)
    (hm : allModified w'.trace = allModified w.trace ++ [env.now c]) :
    Ordered env w' := by
  unfold Ordered
  rw [hm]
  constructor
  · rw [List.pairwise_append]
    refine ⟨h.1, List.pairwise_singleton _ _, ?_⟩
    intro a ha b hb
    rw [List.mem_singleton] at hb
    rw [hb]
    exact h.2 a ha c hc
  · intro m hmem k hk
    rw [List.mem_append, List.mem_singleton] at hmem
    rcases hmem with hmem | hmem
    · exact h.2 m hmem k (by omega)
    · rw [hmem]
      exact hmono (by omega)

theorem allModified_append (a b : List Effect) :
    allModified (a ++ b) = allModified a ++ allModified b := by
  simp [allModified]

theorem updateLoop_ordered (env : Env) (hmono : Monotone env.now) (cmd : runProducerCmd)
    (i id : Nat) :
    ∀ (n j : Nat) (w : World), Ordered env w →
      Ordered env (updateLoop env cmd i id n j w).world
  | 0, _, w, h => h
  | n + 1, j, w, h => by
    simp only [updateLoop]
    split
    · refine ordered_skip env w _ h ?_ ?_
      · simp [fatal, World.emit, Outcome.world]
      · simp [fatal, World.emit, Outcome.world, allModified, Effect.written]
    · refine updateLoop_ordered env hmono cmd i id n (j + 1) _ ?_
      refine ordered_write env hmono w _ w.ticks h (Nat.le_refl _) ?_ ?_
      · simp [World.emit]
      · simp [World.emit, allModified, Effect.written]

theorem insertLoop_ordered (env : Env) (hmono : Monotone env.now) (cmd : runProducerCmd) :
    ∀ (n i : Nat) (w : World), Ordered env w →
      Ordered env (insertLoop env cmd n i w).world
  | 0, _, w, h => h
  | n + 1, i, w, h => by
    simp only [insertLoop]
    split
    · refine ordered_skip env w _ h ?_ ?_
      · simp [fatal, World.emit, Outcome.world]
      · simp [fatal, World.emit, Outcome.world, allModified, Effect.written]
    · have h4 : Ordered env
          ((({ ticks := (w.emit (.sleep (millis cmd.DelayBetweenInserts))).ticks + 2
               people := (w.emit (.sleep (millis cmd.DelayBetweenInserts))).people ++
                 [{ id := env.insertedID i
                    firstname := (newPerson env i w.ticks).FirstName
                    lastname := (newPerson env i w.ticks).LastName
                    created := (newPerson env i w.ticks).Created
                    modified := (newPerson env i w.ticks).Modified }]
               trace := (w.emit (.sleep (millis cmd.DelayBetweenInserts))).trace } : World).emit
              (.insertOne (newPerson env i w.ticks) (some (env.insertedID i)))).emit
            (.info "record inserted" [("InsertedID", .oid (env.insertedID i))])) := by
        refine ordered_write env hmono w _ (w.ticks + 1) h (Nat.le_succ _) ?_ ?_
        · simp [World.emit]
        · simp [World.emit, allModified, Effect.written, newPerson]
      have h5 := updateLoop_ordered env hmono cmd i (env.insertedID i) cmd.Updates.toNat 0 _ h4
      split
      · next w5 e5 =>
        exact (congrArg (fun o => Ordered env o.world) e5).mp h5
      · next w5 e5 =>
        exact insertLoop_ordered env hmono cmd n (i + 1) w5
          ((congrArg (fun o => Ordered env o.world) e5).mp h5)

theorem runProducer_ordered (env : Env) (hmono : Monotone env.now) (cmd : runProducerCmd) :
    (allModified (runProducer env cmd World.init).world.trace).Pairwise (fun a b => a ≤ b) := by
  have h0 : Ordered env
      ((World.init.emit (.info "running producer"
        [("Inserts", .int cmd.Inserts), ("Updates", .int cmd.Updates)])).emit (.connect true)) :=
    ⟨by simp [World.emit, World.init, allModified, Effect.written],
     by simp [World.emit, World.init, allModified, Effect.written]⟩
  have h1 := insertLoop_ordered env hmono cmd cmd.Inserts.toNat 0 _ h0
  unfold runProducer
  by_cases hc : env.connectErr
  · simp [hc, fatal, World.emit, World.init, Outcome.world, allModified, Effect.written]
  · simp only [hc, Bool.false_eq_true, if_false]
    split
    · next w3 e3 =>
      rw [e3] at h1
      exact h1.1
    · next w3 e3 =>
      rw [e3] at h1
      obtain ⟨tail, t1, _, t3⟩ := deferDisconnect_trace env w3
      rw [t1, allModified_append]
      have : allModified tail = [] := by
        simp only [allModified, List.map_eq_nil_iff, List.filterMap_eq_nil_iff]
        intro e he
        rcases t3 e he with ⟨ok, rfl⟩ | ⟨m, rfl⟩ <;> rfl
      rw [this, List.append_nil]
      exact h1.1

/-! ## The persons handed to `InsertOne` -/

theorem inserts_append (a b : List Effect) : inserts (a ++ b) = inserts a ++ inserts b := by
  simp [inserts]

theorem updateLoop_inserts (env : Env) (cmd : runProducerCmd) (i id : Nat) :
    ∀ (n j : Nat) (w : World),
      inserts (updateLoop env cmd i id n j w).world.trace = inserts w.trace
  | 0, _, w => rfl
  | n + 1, j, w => by
    simp only [updateLoop]
    split
    · simp [fatal, World.emit, Outcome.world, inserts]
    · rw [updateLoop_inserts env cmd i id n (j + 1)]
      simp [World.emit, inserts]

theorem updateLoop_ticks (env : Env) (cmd : runProducerCmd) (i id : Nat) :
    ∀ (n j : Nat) (w w' : World),
      updateLoop env cmd i id n j w = .done w' → w'.ticks = w.ticks + n
  | 0, _, w, w', h => by
    simp only [updateLoop, Outcome.done.injEq] at h
    rw [← h]; rfl
  | n + 1, j, w, w', h => by
    simp only [updateLoop] at h
    split at h
    · simp [fatal] at h
    · rw [updateLoop_ticks env cmd i id n (j + 1) _ w' h]
      simp only [World.emit]
      omega

/-- The persons handed to `InsertOne` by the insert loop are those of the
records `i`, `i + 1`, ... up to the record at which the loop stops. -/
theorem insertLoop_inserts (env : Env) (cmd : runProducerCmd) :
    ∀ (n i : Nat) (w : World),
      ∃ m, m ≤ n ∧
        (inserts (insertLoop env cmd n i w).world.trace).map Prod.fst =
          (inserts w.trace).map Prod.fst ++
            (List.range m).map
              (fun t => newPerson env (i + t) (w.ticks + t * (cmd.Updates.toNat + 2)))
  | 0, _, w => ⟨0, Nat.le_refl 0, by simp [insertLoop, Outcome.world]⟩
  | n + 1, i, w => by
    simp only [insertLoop]
    split
    · exact ⟨1, by omega, by simp [fatal, World.emit, Outcome.world, inserts, List.range_succ]⟩
    · have h5 := updateLoop_inserts env cmd i (env.insertedID i) cmd.Updates.toNat 0
        ((({ ticks := (w.emit (.sleep (millis cmd.DelayBetweenInserts))).ticks + 2
             people := (w.emit (.sleep (millis cmd.DelayBetweenInserts))).people ++
               [{ id := env.insertedID i
                  firstname := (newPerson env i w.ticks).FirstName
                  lastname := (newPerson env i w.ticks).LastName
                  created := (newPerson env i w.ticks).Created
                  modified := (newPerson env i w.ticks).Modified }]
             trace := (w.emit (.sleep (millis cmd.DelayBetweenInserts))).trace } : World).emit
            (.insertOne (newPerson env i w.ticks) (some (env.insertedID i)))).emit
          (.info "record inserted" [("InsertedID", .oid (env.insertedID i))]))
      split
      · next w5 e5 =>
        have h5' := (congrArg (fun o => inserts o.world.trace) e5).symm.trans h5
        refine ⟨1, by omega, ?_⟩
        simp only [Outcome.world] at h5' ⊢
        rw [h5']
        simp [World.emit, inserts, List.range_succ]
      · next w5 e5 =>
        have h5' := (congrArg (fun o => inserts o.world.trace) e5).symm.trans h5
        have t5 := updateLoop_ticks env cmd i (env.insertedID i) cmd.Updates.toNat 0 _ w5 e5
        obtain ⟨m, hm, e⟩ := insertLoop_inserts env cmd n (i + 1) w5
        refine ⟨m + 1, by omega, ?_⟩
        simp only [Outcome.world] at h5'
        rw [e, h5', List.range_succ_eq_map, t5]
        simp only [World.emit, inserts, List.filterMap_append, List.filterMap_cons,
          List.filterMap_nil, List.map_append, List.map_cons, List.map_nil, List.append_nil,
          List.map_map, List.append_assoc, List.cons_append, List.nil_append, Nat.add_zero,
          Nat.zero_mul]
        congr 2
        apply List.map_congr_left
        intro t _
        simp only [Function.comp_apply, Nat.succ_eq_add_one]
        congr 1 <;> ring

theorem runProducer_inserts (env : Env) (cmd : runProducerCmd) :
    ∃ m, m ≤ cmd.Inserts.toNat ∧
      (inserts (runProducer env cmd World.init).world.trace).map Prod.fst =
        (List.range m).map (fun t => newPerson env t (t * (cmd.Updates.toNat + 2))) := by
  unfold runProducer
  by_cases hc : env.connectErr
  · exact ⟨0, Nat.zero_le _, by simp [hc, fatal, World.emit, World.init, Outcome.world, inserts]⟩
  · obtain ⟨m, hm, e⟩ := insertLoop_inserts env cmd cmd.Inserts.toNat 0
      ((World.init.emit (.info "running producer"
        [("Inserts", .int cmd.Inserts), ("Updates", .int cmd.Updates)])).emit (.connect true))
    refine ⟨m, hm, ?_⟩
    simp only [hc, Bool.false_eq_true, if_false]
    have e' : (inserts (insertLoop env cmd cmd.Inserts.toNat 0
        ((World.init.emit (.info "running producer"
          [("Inserts", .int cmd.Inserts), ("Updates", .int cmd.Updates)])).emit
            (.connect true))).world.trace).map Prod.fst =
        (List.range m).map (fun t => newPerson env t (t * (cmd.Updates.toNat + 2))) := by
      rw [e]
      simp [World.emit, World.init, inserts]
    split
    · next w3 e3 =>
      rw [e3] at e'
      exact e'
    · next w3 e3 =>
      rw [e3] at e'
      obtain ⟨tail, t1, _, t3⟩ := deferDisconnect_trace env w3
      rw [t1, inserts_append]
      have : inserts tail = [] := by
        simp only [inserts, List.filterMap_eq_nil_iff]
        intro e he
        rcases t3 e he with ⟨ok, rfl⟩ | ⟨m, rfl⟩ <;> rfl
      rw [this, List.append_nil]
      exact e'

/-! ## Projections of a flattened list -/

theorem filter_flatMap_nil {α β : Type} (p : β → Bool) (f : α → List β) :
    ∀ l : List α, (∀ a ∈ l, (f a).filter p = []) → (l.flatMap f).filter p = []
  | [], _ => rfl
  | a :: l, h => by
    rw [List.flatMap_cons, List.filter_append, h a (List.mem_cons_self a l),
      filter_flatMap_nil p f l (fun x hx => h x (List.mem_cons_of_mem a hx))]
    rfl

/-- Filtering a flattened list of blocks of which only block `i` has elements
that pass the filter. -/
theorem filter_flatMap_unique {α β : Type} (p : β → Bool) (f : α → List β) (i : α) :
    ∀ l : List α, l.Nodup → i ∈ l → (∀ a ∈ l, a ≠ i → (f a).filter p = []) →
      (l.flatMap f).filter p = (f i).filter p
  | [], _, hi, _ => by simp at hi
  | a :: l, hnd, hi, h => by
    rw [List.nodup_cons] at hnd
    rw [List.flatMap_cons, List.filter_append]
    by_cases hai : a = i
    · subst hai
      rw [filter_flatMap_nil p f l (fun x hx => h x (List.mem_cons_of_mem a hx)
        (fun hxa => hnd.1 (hxa ▸ hx)))]
      simp
    · have hi' : i ∈ l := by
        rcases List.mem_cons.mp hi with h1 | h1
        · exact absurd h1.symm hai
        · exact h1
      rw [h a (List.mem_cons_self a l) hai,
        filter_flatMap_unique p f i l hnd.2 hi'
          (fun x hx hne => h x (List.mem_cons_of_mem a hx) hne)]
      rfl

theorem written_updates (env : Env) (cmd : runProducerCmd) (id c n : Nat) :
    ((List.range n).flatMap (fun j => updateTrace env cmd id (c + j) j)).filterMap
        Effect.written =
      (List.range n).map (fun j => (id, env.now (c + j))) := by
  simp only [List.filterMap_flatMap, updateTrace, List.filterMap_cons, Effect.written,
    List.filterMap_nil]
  induction (List.range n) with
  | nil => rfl
  | cons a l ih => simp [List.flatMap_cons, ih]

theorem written_recordTrace (env : Env) (cmd : runProducerCmd) (i c : Nat) :
    (recordTrace env cmd i c).filterMap Effect.written =
      (env.insertedID i, env.now (c + 1)) ::
        (List.range cmd.Updates.toNat).map (fun j => (env.insertedID i, env.now (c + 2 + j))) := by
  unfold recordTrace
  rw [List.filterMap_append, written_updates]
  simp [Effect.written, newPerson]

/-- The instants written for the identity of record `i` in a run without
failure in which the records have pairwise distinct identities. -/
theorem modifiedOf_runProducer_ok (env : Env) (cmd : runProducerCmd)
    (hc : env.connectErr = false)
    (hi : ∀ i, i < cmd.Inserts.toNat → env.insertErr i = false)
    (hu : ∀ i j, i < cmd.Inserts.toNat → j < cmd.Updates.toNat → env.updateErr i j = false)
    (hinj : ∀ a b, a < cmd.Inserts.toNat → b < cmd.Inserts.toNat →
      env.insertedID a = env.insertedID b → a = b)
    (i : Nat) (hiN : i < cmd.Inserts.toNat) :
    modifiedOf (env.insertedID i) (runProducer env cmd World.init).world.trace =
      env.now (i * (cmd.Updates.toNat + 2) + 1) ::
        (List.range cmd.Updates.toNat).map
          (fun j => env.now (i * (cmd.Updates.toNat + 2) + 2 + j)) := by
  obtain ⟨tail, h1, _, h3⟩ := runProducer_ok env cmd hc hi hu
  have ht : tail.filterMap Effect.written = [] := by
    rw [List.filterMap_eq_nil_iff]
    intro e he
    rcases h3 e he with ⟨ok, rfl⟩ | ⟨m, rfl⟩ <;> rfl
  have hh : (producerHead cmd).filterMap Effect.written = [] := rfl
  unfold modifiedOf
  rw [h1, List.filterMap_append, List.filterMap_append, ht, hh, List.append_nil,
    List.nil_append, List.filterMap_flatMap]
  rw [filter_flatMap_unique _ _ i (List.range cmd.Inserts.toNat) (List.nodup_range _)
    (List.mem_range.mpr hiN)]
  · rw [written_recordTrace]
    simp [List.filter_cons, List.filter_map, Function.comp_def]
  · intro a ha hne
    rw [written_recordTrace]
    have hid : env.insertedID a ≠ env.insertedID i :=
      fun h => hne (hinj a i (List.mem_range.mp ha) hiN h)
    simp [List.filter_cons, List.filter_map, Function.comp_def, hid]

theorem modifiedOf_sublist (id : Nat) (tr : List Effect) :
    (modifiedOf id tr).Sublist (allModified tr) :=
  List.Sublist.map Prod.snd (List.filter_sublist _)

/-! ## The collection after a run -/

theorem findOneAndUpdate_last (id : Nat) (l : String) (m : Int) (d : Document)
    (hd : d.id = id) :
    ∀ pre : List Document, id ∉ ids pre →
      findOneAndUpdate id l m (pre ++ [d]) =
        some (pre ++ [{ d with lastname := l, modified := m }],
          { d with lastname := l, modified := m })
  | [], _ => by simp [findOneAndUpdate, hd]
  | x :: pre, h => by
    have hx : x.id ≠ id := fun e => h (by simp [ids, e])
    have hp : id ∉ ids pre := fun e => h (by
      simp only [ids, List.map_cons, List.mem_cons]
      exact Or.inr e)
    simp [findOneAndUpdate, hx, findOneAndUpdate_last id l m d hd pre hp]

/-- The collection after `n` updates of its last document, none of which fails. -/
theorem updateLoop_people (env : Env) (cmd : runProducerCmd) (i id : Nat) :
    ∀ (n j : Nat) (w : World) (pre : List Document) (d : Document),
      w.people = pre ++ [d] → d.id = id → id ∉ ids pre →
      (∀ t, t < n → env.updateErr i (j + t) = false) →
      (updateLoop env cmd i id n j w).world.people =
        pre ++ [if n = 0 then d else
          { d with lastname := "LastName" ++ toString (j + n)
                   modified := env.now (w.ticks + n - 1) }]
  | 0, _, w, pre, d, hw, _, _, _ => by simp [updateLoop, Outcome.world, hw]
  | n + 1, j, w, pre, d, hw, hd, hpre, hu => by
    have h0 : env.updateErr i j = false := by simpa using hu 0 (Nat.succ_pos n)
    have hf := findOneAndUpdate_last id ("LastName" ++ toString (j + 1)) (env.now w.ticks) d hd
      pre hpre
    simp only [updateLoop, World.emit, h0, hw, hf, Bool.false_eq_true, if_false]
    rw [updateLoop_people env cmd i id n (j + 1) _ pre
      { d with lastname := "LastName" ++ toString (j + 1), modified := env.now w.ticks }
      rfl hd hpre
      (fun t ht => by
        have := hu (t + 1) (Nat.succ_lt_succ ht)
        rwa [show j + 1 + t = j + (t + 1) by omega])]
    cases n with
    | zero => simp
    | succ k =>
      simp only [Nat.add_one_ne_zero, if_false]
      rw [show j + 1 + (k + 1) = j + (k + 1 + 1) by omega,
        show w.ticks + 1 + (k + 1) - 1 = w.ticks + (k + 1 + 1) - 1 by omega]

/-- The collection after `n` records none of whose store calls fails and whose
identities are new and pairwise distinct. -/
theorem insertLoop_people (env : Env) (cmd : runProducerCmd) :
    ∀ (n i : Nat) (w : World),
      (∀ t, t < n → env.insertErr (i + t) = false) →
      (∀ t j, t < n → j < cmd.Updates.toNat → env.updateErr (i + t) j = false) →
      (∀ t, t < n → env.insertedID (i + t) ∉ ids w.people) →
      (∀ a b, a < n → b < n → env.insertedID (i + a) = env.insertedID (i + b) → a = b) →
      (insertLoop env cmd n i w).world.people =
        w.people ++ (List.range n).map
          (fun t => finalDoc env cmd.Updates.toNat (i + t)
            (w.ticks + t * (cmd.Updates.toNat + 2)))
  | 0, _, w, _, _, _, _ => by simp [insertLoop, Outcome.world]
  | n + 1, i, w, hi, hu, hnew, hinj => by
    have h0 : env.insertErr i = false := by simpa using hi 0 (Nat.succ_pos n)
    have hu0 : ∀ t, t < cmd.Updates.toNat → env.updateErr i (0 + t) = false :=
      fun t ht => by simpa using hu 0 t (Nat.succ_pos n) ht
    have hn0 : env.insertedID i ∉ ids w.people := by simpa using hnew 0 (Nat.succ_pos n)
    obtain ⟨w5, u1, u2, u3, _⟩ := updateLoop_ok env cmd i (env.insertedID i)
      cmd.Updates.toNat 0
      { ticks := w.ticks + 2
        people := w.people ++
          [{ id := env.insertedID i, firstname := (newPerson env i w.ticks).FirstName
             lastname := (newPerson env i w.ticks).LastName
             created := (newPerson env i w.ticks).Created
             modified := (newPerson env i w.ticks).Modified }]
        trace := w.trace ++
          [.sleep (millis cmd.DelayBetweenInserts),
           .insertOne (newPerson env i w.ticks) (some (env.insertedID i)),
           .info "record inserted" [("InsertedID", .oid (env.insertedID i))]] }
      hu0 (by simp [ids])
    have u5 := updateLoop_people env cmd i (env.insertedID i) cmd.Updates.toNat 0
      { ticks := w.ticks + 2
        people := w.people ++
          [{ id := env.insertedID i, firstname := (newPerson env i w.ticks).FirstName
             lastname := (newPerson env i w.ticks).LastName
             created := (newPerson env i w.ticks).Created
             modified := (newPerson env i w.ticks).Modified }]
        trace := w.trace ++
          [.sleep (millis cmd.DelayBetweenInserts),
           .insertOne (newPerson env i w.ticks) (some (env.insertedID i)),
           .info "record inserted" [("InsertedID", .oid (env.insertedID i))]] }
      w.people
      { id := env.insertedID i, firstname := (newPerson env i w.ticks).FirstName
        lastname := (newPerson env i w.ticks).LastName
        created := (newPerson env i w.ticks).Created
        modified := (newPerson env i w.ticks).Modified }
      rfl rfl hn0 hu0
    rw [u1] at u5
    simp only [Outcome.world] at u5
    have hrec := insertLoop_people env cmd n (i + 1) w5
      (fun t ht => by
        have := hi (t + 1) (Nat.succ_lt_succ ht)
        rwa [show i + 1 + t = i + (t + 1) by omega])
      (fun t j ht hj => by
        have := hu (t + 1) j (Nat.succ_lt_succ ht) hj
        rwa [show i + 1 + t = i + (t + 1) by omega])
      (fun t ht hmem => by
        rw [u3] at hmem
        simp only [ids, List.map_append, List.map_cons, List.map_nil, List.mem_append,
          List.mem_singleton] at hmem
        rcases hmem with hmem | hmem
        · exact hnew (t + 1) (Nat.succ_lt_succ ht)
            (by rw [show i + (t + 1) = i + 1 + t by omega]; exact hmem)
        · have := hinj (t + 1) 0 (Nat.succ_lt_succ ht) (Nat.succ_pos n)
            (by rw [show i + (t + 1) = i + 1 + t by omega]; simpa using hmem)
          omega)
      (fun a b ha hb h => by
        have := hinj (a + 1) (b + 1) (Nat.succ_lt_succ ha) (Nat.succ_lt_succ hb)
          (by rw [show i + (a + 1) = i + 1 + a by omega, show i + (b + 1) = i + 1 + b by omega]
              exact h)
        omega)
    have hloop : insertLoop env cmd (n + 1) i w = insertLoop env cmd n (i + 1) w5 := by
      simp only [insertLoop, World.emit, h0]
      simp only [List.append_assoc, List.cons_append, List.nil_append, Bool.false_eq_true,
        if_false, u1]
    rw [hloop, hrec, u5, u2, List.range_succ_eq_map]
    simp only [List.map_cons, List.map_map, List.append_assoc, List.cons_append,
      List.nil_append, Nat.zero_mul, Nat.add_zero]
    congr 2
    · by_cases hM : cmd.Updates.toNat = 0
      · simp [finalDoc, newPerson, hM]
      · simp only [finalDoc, newPerson, hM, if_false, Nat.zero_add]
        congr 2
        omega
    · apply List.map_congr_left
      intro t _
      simp only [Function.comp_apply, Nat.succ_eq_add_one]
      congr 1
      · omega
      · ring

/-- The collection when the insert of record `k` is the first store call to
fail and the records before it have pairwise distinct identities. -/
theorem people_runProducer_insertFail (env : Env) (cmd : runProducerCmd) (k : Nat)
    (hc : env.connectErr = false) (hk : k < cmd.Inserts.toNat)
    (hi : ∀ i, i < k → env.insertErr i = false)
    (hu : ∀ i j, i < k → j < cmd.Updates.toNat → env.updateErr i j = false)
    (hf : env.insertErr k = true)
    (hinj : ∀ a b, a < k → b < k → env.insertedID a = env.insertedID b → a = b) :
    (runProducer env cmd World.init).world.people =
      (List.range k).map
        (fun i => finalDoc env cmd.Updates.toNat i (i * (cmd.Updates.toNat + 2))) := by
  obtain ⟨w, e1, _, _, _⟩ := insertLoop_prefix env cmd k hi hu
  obtain ⟨r, hr⟩ : ∃ r, cmd.Inserts.toNat = k + (r + 1) := ⟨cmd.Inserts.toNat - k - 1, by omega⟩
  have hp := insertLoop_people env cmd k 0
    { ticks := 0, people := [], trace := producerHead cmd }
    (fun t ht => by simpa using hi t ht) (fun t j ht hj => by simpa using hu t j ht hj)
    (fun t _ => by simp [ids])
    (fun a b ha hb h => hinj a b ha hb (by simpa using h))
  rw [e1] at hp
  simp only [Outcome.world] at hp
  rw [runProducer_eq env cmd hc, hr, insertLoop_add, e1]
  simp only [Nat.zero_add]
  rw [insertLoop_fail env cmd r k w hf]
  simp only [Outcome.world, hp]
  simp

/-! ## The writes of one record -/

theorem length_flatMap_uniform {β : Type} (f : Nat → List β) (s : Nat)
    (hlen : ∀ i, (f i).length = s) (l : List Nat) : (l.flatMap f).length = l.length * s := by
  induction l with
  | nil => simp
  | cons a l ih =>
    rw [List.flatMap_cons, List.length_append, ih, hlen, List.length_cons, Nat.succ_mul]
    omega

/-- Block `i` of a flattened list of `N` blocks of the same length `s`. -/
theorem take_drop_flatMap_uniform {β : Type} (f : Nat → List β) (s : Nat)
    (hlen : ∀ i, (f i).length = s) (N i : Nat) (h : i < N) :
    (((List.range N).flatMap f).drop (i * s)).take s = f i := by
  obtain ⟨r, hr⟩ : ∃ r, N = i + (r + 1) := ⟨N - i - 1, by omega⟩
  rw [hr, List.range_add, List.flatMap_append,
    List.drop_left' (by rw [length_flatMap_uniform f s hlen, List.length_range]),
    List.flatMap_map, flatMap_range_succ]
  exact List.take_left' (hlen _)

theorem length_updates_records (env : Env) (M k : Nat) :
    (((List.range k).flatMap (recordWrites env M)).filter Write.isUpdate).length = k * M := by
  induction k with
  | zero => simp
  | succ k ih =>
    rw [List.range_succ, List.flatMap_append, List.filter_append, List.length_append, ih]
    simp [recordWrites, List.filter_cons, List.filter_map, Function.comp_def, Write.isUpdate,
      Nat.succ_mul]

theorem updatesOf_records (env : Env) (M N : Nat)
    (hinj : ∀ a b, a < N → b < N → env.insertedID a = env.insertedID b → a = b)
    (i : Nat) (hiN : i < N) :
    ((List.range N).flatMap (recordWrites env M)).filter (Write.isUpdateOf (env.insertedID i)) =
      (List.range M).map
        (fun j => Write.update (env.insertedID i) ("LastName" ++ toString (j + 1)) true) := by
  rw [filter_flatMap_unique _ _ i (List.range N) (List.nodup_range _) (List.mem_range.mpr hiN)]
  · simp [recordWrites, List.filter_cons, List.filter_map, Function.comp_def, Write.isUpdateOf]
  · intro a ha hne
    have hid : env.insertedID a ≠ env.insertedID i :=
      fun h => hne (hinj a i (List.mem_range.mp ha) hiN h)
    simp [recordWrites, List.filter_cons, List.filter_map, Function.comp_def,
      Write.isUpdateOf, hid]

/-- The collection after a producer run without failure whose records have
pairwise distinct identities. -/
theorem people_runProducer_ok (env : Env) (cmd : runProducerCmd)
    (hc : env.connectErr = false)
    (hi : ∀ i, i < cmd.Inserts.toNat → env.insertErr i = false)
    (hu : ∀ i j, i < cmd.Inserts.toNat → j < cmd.Updates.toNat → env.updateErr i j = false)
    (hinj : ∀ a b, a < cmd.Inserts.toNat → b < cmd.Inserts.toNat →
      env.insertedID a = env.insertedID b → a = b) :
    (runProducer env cmd World.init).world.people =
      (List.range cmd.Inserts.toNat).map
        (fun i => finalDoc env cmd.Updates.toNat i (i * (cmd.Updates.toNat + 2))) := by
  obtain ⟨w, e1, _, _, _⟩ := insertLoop_prefix env cmd cmd.Inserts.toNat hi hu
  have hp := insertLoop_people env cmd cmd.Inserts.toNat 0
    { ticks := 0, people := [], trace := producerHead cmd }
    (fun t ht => by simpa using hi t ht) (fun t j ht hj => by simpa using hu t j ht hj)
    (fun t _ => by simp [ids])
    (fun a b ha hb h => hinj a b ha hb (by simpa using h))
  rw [e1] at hp
  obtain ⟨tail, _, t2, _⟩ := deferDisconnect_trace env w
  rw [runProducer_eq env cmd hc, e1]
  simp only [t2]
  simp only [Outcome.world] at hp
  rw [hp]
  simp

/-! ## The claims -/

/-- C1: a producer run with `Inserts = N`, `Updates = M` in which no store call
fails issues exactly `N` `InsertOne` calls; the collection then holds `N`
documents whose identities are the ones the inserts returned, pairwise distinct
as soon as the store gives distinct identities to the `N` inserts; and with
`N = 0` no insert and no update is issued, whatever the store does. -/
theorem producer_inserts_exactly_N (env : Env) (N M : Nat) (dI dU : Int)
    (hc : env.connectErr = false)
    (hi : ∀ i, i < N → env.insertErr i = false)
    (hu : ∀ i j, i < N → j < M → env.updateErr i j = false) :
    (inserts (runProducer env ⟨N, M, dI, dU⟩ World.init).world.trace).length = N ∧
    (runProducer env ⟨N, M, dI, dU⟩ World.init).world.people.length = N ∧
    ids (runProducer env ⟨N, M, dI, dU⟩ World.init).world.people =
      (List.range N).map env.insertedID ∧
    ((∀ a b, a < N → b < N → env.insertedID a = env.insertedID b → a = b) →
      (ids (runProducer env ⟨N, M, dI, dU⟩ World.init).world.people).Nodup) ∧
    (∀ env' : Env, writes (runProducer env' ⟨0, M, dI, dU⟩ World.init).world.trace = []) := by
  have hw := writes_runProducer_ok env ⟨N, M, dI, dU⟩ hc (by simpa using hi) (by simpa using hu)
  obtain ⟨tail, _, h2, _⟩ :=
    runProducer_ok env ⟨N, M, dI, dU⟩ hc (by simpa using hi) (by simpa using hu)
  simp only [Int.toNat_natCast] at hw h2
  refine ⟨?_, ?_, h2, ?_, ?_⟩
  · rw [inserts_of_writes, hw, length_inserts_records]
  · have := congrArg List.length h2
    simpa [ids] using this
  · intro hinj
    rw [h2]
    exact List.Nodup.map_on
      (fun x hx y hy h => hinj x y (List.mem_range.mp hx) (List.mem_range.mp hy) h)
      (List.nodup_range N)
  · intro env'
    exact writes_nil_of_zero env' _ (by simp)

theorem producer_inserts_exactly_N_witness :
    (inserts (runProducer Env.ideal ⟨((2 : Nat) : Int), ((3 : Nat) : Int), 0, 0⟩
      World.init).world.trace).length = 2 ∧
    (runProducer Env.ideal ⟨((2 : Nat) : Int), ((3 : Nat) : Int), 0, 0⟩
      World.init).world.people.length = 2 :=
  ⟨(producer_inserts_exactly_N Env.ideal 2 3 0 0 rfl (fun _ _ => rfl)
      (fun _ _ _ _ => rfl)).1,
   (producer_inserts_exactly_N Env.ideal 2 3 0 0 rfl (fun _ _ => rfl)
      (fun _ _ _ _ => rfl)).2.1⟩

/-- C3: in a producer run in which no store call fails, the store writes are,
in this order, the insert of record 0, its updates 1 to `M`, the insert of
record 1, its updates 1 to `M`, and so on up to record `N - 1`; there are
`N * (M + 1)` of them, and in the trace every write is followed by the log
entry of its answer before the next write is issued. -/
theorem producer_writes_sequential (env : Env) (N M : Nat) (dI dU : Int)
    (hc : env.connectErr = false)
    (hi : ∀ i, i < N → env.insertErr i = false)
    (hu : ∀ i j, i < N → j < M → env.updateErr i j = false) :
    writes (runProducer env ⟨N, M, dI, dU⟩ World.init).world.trace =
      (List.range N).flatMap (fun i =>
        Write.insert ("FirstName" ++ toString (i + 1)) "LastName" (some (env.insertedID i)) ::
          (List.range M).map (fun j =>
            Write.update (env.insertedID i) ("LastName" ++ toString (j + 1)) true)) ∧
    (writes (runProducer env ⟨N, M, dI, dU⟩ World.init).world.trace).length = N * (M + 1) ∧
    ∃ tail, (runProducer env ⟨N, M, dI, dU⟩ World.init).world.trace =
      producerHead ⟨N, M, dI, dU⟩ ++
        (List.range N).flatMap (fun i => recordTrace env ⟨N, M, dI, dU⟩ i (i * (M + 2))) ++
        tail ∧ writes tail = [] := by
  have hw := writes_runProducer_ok env ⟨N, M, dI, dU⟩ hc (by simpa using hi) (by simpa using hu)
  obtain ⟨tail, h1, _, h3⟩ :=
    runProducer_ok env ⟨N, M, dI, dU⟩ hc (by simpa using hi) (by simpa using hu)
  simp only [Int.toNat_natCast] at hw h1
  refine ⟨hw, ?_, tail, h1, writes_tail tail h3⟩
  rw [hw, length_flatMap_recordWrites]

theorem producer_writes_sequential_witness :
    writes (runProducer Env.ideal ⟨((2 : Nat) : Int), ((2 : Nat) : Int), 0, 0⟩
      World.init).world.trace =
      [.insert "FirstName1" "LastName" (some 100), .update 100 "LastName1" true,
       .update 100 "LastName2" true,
       .insert "FirstName2" "LastName" (some 101), .update 101 "LastName1" true,
       .update 101 "LastName2" true] :=
  (producer_writes_sequential Env.ideal 2 2 0 0 rfl (fun _ _ => rfl)
    (fun _ _ _ _ => rfl)).1.trans (by decide)

/-- C4: if the insert of record `k < N` is the first store call to fail, the
producer run ends there through `logger.Fatal`: the store writes are the full
cycles of records 0 to `k - 1` followed by the single failed insert of record
`k`, the last trace entry is the fatal log entry, and the collection holds
exactly the `k` documents inserted before, with the identities their inserts
returned (when these are pairwise distinct, each document carries the
`lastname` of its last update). -/
theorem producer_halts_on_insert_failure (env : Env) (N M : Nat) (dI dU : Int) (k : Nat)
    (hc : env.connectErr = false) (hk : k < N)
    (hi : ∀ i, i < k → env.insertErr i = false)
    (hu : ∀ i j, i < k → j < M → env.updateErr i j = false)
    (hf : env.insertErr k = true) :
    (runProducer env ⟨N, M, dI, dU⟩ World.init).isExited = true ∧
    writes (runProducer env ⟨N, M, dI, dU⟩ World.init).world.trace =
      (List.range k).flatMap (fun i =>
        Write.insert ("FirstName" ++ toString (i + 1)) "LastName" (some (env.insertedID i)) ::
          (List.range M).map (fun j =>
            Write.update (env.insertedID i) ("LastName" ++ toString (j + 1)) true)) ++
      [Write.insert ("FirstName" ++ toString (k + 1)) "LastName" none] ∧
    (runProducer env ⟨N, M, dI, dU⟩ World.init).world.trace.getLast? =
      some (.fatal "error inserting records") ∧
    (runProducer env ⟨N, M, dI, dU⟩ World.init).world.people.length = k ∧
    ids (runProducer env ⟨N, M, dI, dU⟩ World.init).world.people =
      (List.range k).map env.insertedID ∧
    ((∀ a b, a < k → b < k → env.insertedID a = env.insertedID b → a = b) →
      (runProducer env ⟨N, M, dI, dU⟩ World.init).world.people =
        (List.range k).map (fun i =>
          ({ id := env.insertedID i
             firstname := "FirstName" ++ toString (i + 1)
             lastname := if M = 0 then "LastName" else "LastName" ++ toString M
             created := env.now (i * (M + 2))
             modified := env.now (i * (M + 2) + 1 + M) } : Document))) := by
  have hp := people_runProducer_insertFail env ⟨N, M, dI, dU⟩ k hc (by simpa using hk)
    hi (by simpa using hu) hf
  simp only [Int.toNat_natCast] at hp
  obtain ⟨w, h1, h2, h3⟩ := runProducer_insertFail env ⟨N, M, dI, dU⟩ k hc (by simpa using hk)
    hi (by simpa using hu) hf
  simp only [Int.toNat_natCast] at h3
  rw [h1] at hp ⊢
  refine ⟨rfl, ?_, ?_, ?_, h2, hp⟩
  · simp only [Outcome.world, h3, writes_append, writes_producerHead, List.nil_append]
    have := writes_records env ⟨N, M, dI, dU⟩ k
    simp only [Int.toNat_natCast] at this
    rw [this]
    simp only [writes, Effect.toWrite, newPerson, List.filterMap_cons, List.filterMap_nil]
    rfl
  · simp only [Outcome.world, h3, getLast_append_three]
  · have := congrArg List.length h2
    simpa [ids, Outcome.world] using this

theorem producer_halts_on_insert_failure_witness :
    (runProducer (Env.insertFailsAt 1) ⟨((3 : Nat) : Int), ((2 : Nat) : Int), 0, 0⟩
      World.init).world.people.length = 1 ∧
    writes (runProducer (Env.insertFailsAt 1) ⟨((3 : Nat) : Int), ((2 : Nat) : Int), 0, 0⟩
      World.init).world.trace =
      [.insert "FirstName1" "LastName" (some 100), .update 100 "LastName1" true,
       .update 100 "LastName2" true, .insert "FirstName2" "LastName" none] :=
  ⟨(producer_halts_on_insert_failure (Env.insertFailsAt 1) 3 2 0 0 1 rfl (by decide)
      (by decide) (fun _ _ _ _ => rfl) rfl).2.2.2.1,
   (producer_halts_on_insert_failure (Env.insertFailsAt 1) 3 2 0 0 1 rfl (by decide)
      (by decide) (fun _ _ _ _ => rfl) rfl).2.1.trans (by decide)⟩

/-- C5: if update `j + 1` (that is, the iteration with zero-based index `j < M`)
of record `i < N` is the first store call to fail, the producer run ends there
through `logger.Fatal`: the store writes are the full cycles of records 0 to
`i - 1`, the insert of record `i`, its updates 1 to `j`, and the single failed
update `j + 1`, which is the last write; the last trace entry is the fatal log
entry. -/
theorem producer_halts_on_update_failure (env : Env) (N M : Nat) (dI dU : Int) (i j : Nat)
    (hc : env.connectErr = false) (hN : i < N) (hM : j < M)
    (hi : ∀ a, a ≤ i → env.insertErr a = false)
    (hu : ∀ a b, a < i → b < M → env.updateErr a b = false)
    (hv : ∀ b, b < j → env.updateErr i b = false)
    (hf : env.updateErr i j = true) :
    (runProducer env ⟨N, M, dI, dU⟩ World.init).isExited = true ∧
    writes (runProducer env ⟨N, M, dI, dU⟩ World.init).world.trace =
      (List.range i).flatMap (fun a =>
        Write.insert ("FirstName" ++ toString (a + 1)) "LastName" (some (env.insertedID a)) ::
          (List.range M).map (fun b =>
            Write.update (env.insertedID a) ("LastName" ++ toString (b + 1)) true)) ++
      (Write.insert ("FirstName" ++ toString (i + 1)) "LastName" (some (env.insertedID i)) ::
        (List.range j).map (fun b =>
          Write.update (env.insertedID i) ("LastName" ++ toString (b + 1)) true)) ++
      [Write.update (env.insertedID i) ("LastName" ++ toString (j + 1)) false] ∧
    (runProducer env ⟨N, M, dI, dU⟩ World.init).world.trace.getLast? =
      some (.fatal "error performing update") := by
  obtain ⟨w, h1, _, h3⟩ := runProducer_updateFail env ⟨N, M, dI, dU⟩ i j hc
    (by simpa using hN) (by simpa using hM) hi (by simpa using hu) hv hf
  simp only [Int.toNat_natCast] at h3
  rw [h1]
  refine ⟨rfl, ?_, ?_⟩
  · simp only [Outcome.world, h3, writes_append, writes_producerHead, List.nil_append]
    have := writes_records env ⟨N, M, dI, dU⟩ i
    simp only [Int.toNat_natCast] at this
    rw [this, writes_updates]
    simp only [writes, Effect.toWrite, newPerson, List.filterMap_cons, List.filterMap_nil,
      List.cons_append, List.nil_append, List.append_assoc]
    rfl
  · simp only [Outcome.world, h3, getLast_append_three]

theorem producer_halts_on_update_failure_witness :
    writes (runProducer (Env.updateFailsAt 1 1) ⟨((3 : Nat) : Int), ((3 : Nat) : Int), 0, 0⟩
      World.init).world.trace =
      [.insert "FirstName1" "LastName" (some 100), .update 100 "LastName1" true,
       .update 100 "LastName2" true, .update 100 "LastName3" true,
       .insert "FirstName2" "LastName" (some 101), .update 101 "LastName1" true,
       .update 101 "LastName2" false] :=
  (producer_halts_on_update_failure (Env.updateFailsAt 1 1) 3 3 0 0 1 1 rfl (by decide)
    (by decide) (fun _ _ => rfl)
    (fun a b ha _ => by
      obtain rfl : a = 0 := by omega
      rfl)
    (by decide) rfl).2.1.trans (by decide)

/-- C6: in a consumer run that connects and subscribes, if every event the
cursor yields decodes, the "change stream record" entries are the decodings of
the events, one per event and in the cursor's order, and `Next` is called once
per event and a last time to learn the end; if `bad` is the first event that
does not decode, the run ends through `logger.Fatal` right after fetching it:
the entries emitted are the decodings of the events before `bad`, `bad` is the
last event fetched, and the last trace entry is the fatal log entry. -/
theorem consumer_emits_in_order (env : Env)
    (hc : env.connectErr = false) (hw : env.watchErr = false) :
    ((∀ e ∈ env.events, env.unmarshal e ≠ none) →
      (records (runConsumer env World.init).world.trace).map some =
        env.events.map env.unmarshal ∧
      fetched (runConsumer env World.init).world.trace = env.events.map some ++ [none]) ∧
    (∀ pre bad post, env.events = pre ++ bad :: post →
      (∀ e ∈ pre, env.unmarshal e ≠ none) → env.unmarshal bad = none →
      (runConsumer env World.init).isExited = true ∧
      (records (runConsumer env World.init).world.trace).map some = pre.map env.unmarshal ∧
      fetched (runConsumer env World.init).world.trace = (pre ++ [bad]).map some ∧
      (runConsumer env World.init).world.trace.getLast? =
        some (.fatal "error decoding change-stream record")) := by
  have r1 : records consumerHead = [] := rfl
  have f1 : fetched consumerHead = [] := rfl
  constructor
  · intro h
    obtain ⟨tail, h1, h2, h3⟩ := runConsumer_ok env hc hw h
    have r2 : records [Effect.next none] = [] := rfl
    have f2 : fetched [Effect.next none] = [none] := rfl
    rw [h1]
    simp only [records_append, fetched_append, h2, h3, r1, r2, f1, f2, List.append_nil,
      List.nil_append, fetched_events]
    exact ⟨records_events env _ h, trivial⟩
  · intro pre bad post he h hb
    rw [runConsumer_decodeFail env pre post bad hc hw he h hb]
    have r2 : records [Effect.next (some bad),
        Effect.fatal "error decoding change-stream record"] = [] := rfl
    have f2 : fetched [Effect.next (some bad),
        Effect.fatal "error decoding change-stream record"] = [some bad] := rfl
    refine ⟨rfl, ?_, ?_, ?_⟩
    · simp only [Outcome.world, records_append, r1, r2, List.append_nil, List.nil_append]
      exact records_events env _ h
    · simp only [Outcome.world, fetched_append, fetched_events, f1, f2, List.nil_append,
        List.map_append, List.map_cons, List.map_nil]
    · simp only [Outcome.world]
      rw [List.getLast?_append]
      rfl

theorem consumer_emits_in_order_witness :
    records (runConsumer Env.twoEvents World.init).world.trace = [[("k", "1")], [("k", "2")]] ∧
    records (runConsumer Env.badSecondEvent World.init).world.trace = [[("k", "1")]] ∧
    fetched (runConsumer Env.badSecondEvent World.init).world.trace = [some [1], some [2]] :=
  ⟨List.map_injective_iff.mpr (Option.some_injective _)
      (((consumer_emits_in_order Env.twoEvents rfl rfl).1 (by decide)).1.trans (by decide)),
   List.map_injective_iff.mpr (Option.some_injective _)
      (((consumer_emits_in_order Env.badSecondEvent rfl rfl).2 [[1]] [2] [[3]] rfl (by decide)
        (by decide)).2.1.trans (by decide)),
   ((consumer_emits_in_order Env.badSecondEvent rfl rfl).2 [[1]] [2] [[3]] rfl (by decide)
        (by decide)).2.2.1⟩

/-- C7, what the code does: the cursor yields one event and then stops on an
error; `Run` never calls `changeStream.Err()`, so the run closes the stream and
the connection and returns `nil`, and no fatal entry is logged; no run of the
consumer depends on whether the cursor stopped on an error. -/
theorem consumer_stream_error_returns_nil :
    (∀ (env : Env) (b : Bool),
      runConsumer { env with streamErr := b } World.init = runConsumer env World.init) ∧
    Env.brokenStream.streamErr = true ∧
    runConsumer Env.brokenStream World.init = .done
      { ticks := 0, people := [],
        trace :=
          [.info "running consumer" [], .connect true, .watch true,
           .info "waiting for changes" [],
           .next (some [1]), .info "change stream record" [("record", .doc [("k", "1")])],
           .next none, .close true, .disconnect true] } := by
  refine ⟨fun env b => ?_, by decide⟩
  simp only [runConsumer]
  rw [consumeLoop_congr env { env with streamErr := b } rfl]
  rfl

/-- C8, what the code does: when the insert of the only record fails, or when
an event does not decode, the run ends through `logger.Fatal`, that is
`os.Exit(1)`, and the deferred `Disconnect` and `Close` are not run: the trace
ends with the fatal entry and holds no `disconnect` and no `close` entry. -/
theorem fatal_exit_skips_deferred_release :
    runProducer (Env.insertFailsAt 0) ⟨1, 1, 0, 0⟩ World.init = .exited
      { ticks := 2, people := [],
        trace :=
          [.info "running producer" [("Inserts", .int 1), ("Updates", .int 1)],
           .connect true, .sleep 0,
           .insertOne ⟨"FirstName1", "LastName", 0, 1⟩ none,
           .fatal "error inserting records"] } ∧
    runConsumer Env.badSecondEvent World.init = .exited
      { ticks := 0, people := [],
        trace :=
          [.info "running consumer" [], .connect true, .watch true,
           .info "waiting for changes" [],
           .next (some [1]), .info "change stream record" [("record", .doc [("k", "1")])],
           .next (some [2]), .fatal "error decoding change-stream record"] } ∧
    (runProducer Env.ideal ⟨1, 1, 0, 0⟩ World.init).world.trace.getLast? =
      some (.disconnect true) := by
  decide

/-- C9: under a clock whose successive readings never go back, the `modified`
instants written for any identity in a producer run (the one of the inserted
document, then the ones of the updates filtered by that identity, failing
store calls or not) are in non-decreasing order; and in a run without failure
whose records have pairwise distinct identities that sequence is, for record
`i`, the reading taken for `Modified` at its insert followed by the readings
taken at its updates 1 to `M`. -/
theorem modified_non_decreasing (env : Env) (N M : Nat) (dI dU : Int)
    (hmono : Monotone env.now) :
    (∀ id, (modifiedOf id (runProducer env ⟨N, M, dI, dU⟩ World.init).world.trace).Pairwise
      (fun a b => a ≤ b)) ∧
    (env.connectErr = false → (∀ i, i < N → env.insertErr i = false) →
      (∀ i j, i < N → j < M → env.updateErr i j = false) →
      (∀ a b, a < N → b < N → env.insertedID a = env.insertedID b → a = b) →
      ∀ i, i < N →
        modifiedOf (env.insertedID i) (runProducer env ⟨N, M, dI, dU⟩ World.init).world.trace =
          env.now (i * (M + 2) + 1) ::
            (List.range M).map (fun j => env.now (i * (M + 2) + 2 + j))) := by
  constructor
  · intro id
    exact (runProducer_ordered env hmono ⟨N, M, dI, dU⟩).sublist (modifiedOf_sublist id _)
  · intro hc hi hu hinj i hiN
    have := modifiedOf_runProducer_ok env ⟨N, M, dI, dU⟩ hc (by simpa using hi)
      (by simpa using hu) (by simpa using hinj) i (by simpa using hiN)
    simpa using this

theorem modified_non_decreasing_witness :
    modifiedOf 101 (runProducer Env.ideal ⟨((2 : Nat) : Int), ((3 : Nat) : Int), 0, 0⟩
      World.init).world.trace = [6, 7, 8, 9] ∧
    (modifiedOf 101 (runProducer Env.ideal ⟨((2 : Nat) : Int), ((3 : Nat) : Int), 0, 0⟩
      World.init).world.trace).Pairwise (fun a b => a ≤ b) :=
  ⟨by decide,
   (modified_non_decreasing Env.ideal 2 3 0 0 (fun _ _ h => Int.ofNat_le.mpr h)).1 101⟩

/-- C10, as the code has it: the `i`-th person handed to `InsertOne` in a
producer run has `FirstName` equal to "FirstName" followed by the decimal
numeral of `i + 1` and `LastName` equal to "LastName"; `Created` and
`Modified` are two successive readings of the clock, `Created` the earlier one,
so `Created` is not later than `Modified` when the clock never goes back. -/
theorem inserted_person_fields (env : Env) (cmd : runProducerCmd) (i : Nat) (p : person)
    (r : Option Nat)
    (h : (inserts (runProducer env cmd World.init).world.trace)[i]? = some (p, r)) :
    i < cmd.Inserts.toNat ∧
    p.FirstName = "FirstName" ++ toString (i + 1) ∧
    p.LastName = "LastName" ∧
    p.Created = env.now (i * (cmd.Updates.toNat + 2)) ∧
    p.Modified = env.now (i * (cmd.Updates.toNat + 2) + 1) ∧
    (Monotone env.now → p.Created ≤ p.Modified) := by
  obtain ⟨m, hm, e⟩ := runProducer_inserts env cmd
  have h1 : ((inserts (runProducer env cmd World.init).world.trace).map Prod.fst)[i]? =
      some p := by
    rw [List.getElem?_map, h]; rfl
  rw [e, List.getElem?_map] at h1
  have him : i < m := by
    by_contra hcon
    rw [List.getElem?_eq_none (by simpa using hcon)] at h1
    simp at h1
  rw [List.getElem?_range him] at h1
  simp only [Option.map_some', Option.some.injEq] at h1
  subst h1
  exact ⟨by omega, rfl, rfl, rfl, rfl, fun hmono => hmono (Nat.le_succ _)⟩

theorem inserted_person_fields_witness :
    (inserts (runProducer Env.ideal ⟨2, 3, 0, 0⟩ World.init).world.trace)[1]? =
      some (⟨"FirstName2", "LastName", 5, 6⟩, some 101) ∧
    (⟨"FirstName2", "LastName", 5, 6⟩ : person).Modified =
      Env.ideal.now (1 * ((3 : Int).toNat + 2) + 1) :=
  ⟨by decide,
   (inserted_person_fields Env.ideal ⟨2, 3, 0, 0⟩ 1 ⟨"FirstName2", "LastName", 5, 6⟩ (some 101)
    (by decide)).2.2.2.2.1⟩

/-- C10, against the claim as stated: under the clock that returns the ordinal
of the reading, the only record of a run with `Inserts = 1` is inserted with
`Created = 0` and `Modified = 1`, two different instants. -/
theorem inserted_created_ne_modified :
    inserts (runProducer Env.ideal ⟨1, 0, 0, 0⟩ World.init).world.trace =
      [(⟨"FirstName1", "LastName", 0, 1⟩, some 100)] ∧
    ¬ ∀ p ∈ (inserts (runProducer Env.ideal ⟨1, 0, 0, 0⟩ World.init).world.trace).map Prod.fst,
      p.Created = p.Modified := by
  decide

/-- C2: in a producer run with `Inserts = N`, `Updates = M` in which no store
call fails, the writes of record `i` (positions `i * (M + 1)` to
`i * (M + 1) + M` of the sequence of writes) are its insert followed by
exactly `M` updates, all filtered by the identity that insert returned, the
`j`-th of them setting `lastname` to "LastName" followed by the decimal numeral
of `j`; the run issues `N * M` updates in all.  When the `N` identities are
pairwise distinct, the updates filtered by the identity of record `i` are
exactly those `M`, and the collection ends with `N` documents whose `lastname`
is the value of the last update, "LastName" followed by the numeral of `M`
(for `M = 0`, the inserted "LastName"). -/
theorem updates_per_record (env : Env) (N M : Nat) (dI dU : Int)
    (hc : env.connectErr = false)
    (hi : ∀ i, i < N → env.insertErr i = false)
    (hu : ∀ i j, i < N → j < M → env.updateErr i j = false) :
    (∀ i, i < N →
      ((writes (runProducer env ⟨N, M, dI, dU⟩ World.init).world.trace).drop
          (i * (M + 1))).take (M + 1) =
        Write.insert ("FirstName" ++ toString (i + 1)) "LastName" (some (env.insertedID i)) ::
          (List.range M).map (fun j =>
            Write.update (env.insertedID i) ("LastName" ++ toString (j + 1)) true)) ∧
    ((writes (runProducer env ⟨N, M, dI, dU⟩ World.init).world.trace).filter
      Write.isUpdate).length = N * M ∧
    ((∀ a b, a < N → b < N → env.insertedID a = env.insertedID b → a = b) →
      (∀ i, i < N →
        (writes (runProducer env ⟨N, M, dI, dU⟩ World.init).world.trace).filter
            (Write.isUpdateOf (env.insertedID i)) =
          (List.range M).map (fun j =>
            Write.update (env.insertedID i) ("LastName" ++ toString (j + 1)) true)) ∧
      (runProducer env ⟨N, M, dI, dU⟩ World.init).world.people =
        (List.range N).map (fun i =>
          ({ id := env.insertedID i
             firstname := "FirstName" ++ toString (i + 1)
             lastname := if M = 0 then "LastName" else "LastName" ++ toString M
             created := env.now (i * (M + 2))
             modified := env.now (i * (M + 2) + 1 + M) } : Document))) := by
  have hw := writes_runProducer_ok env ⟨N, M, dI, dU⟩ hc (by simpa using hi) (by simpa using hu)
  simp only [Int.toNat_natCast] at hw
  rw [hw]
  refine ⟨?_, length_updates_records env M N, ?_⟩
  · intro i hiN
    exact take_drop_flatMap_uniform (recordWrites env M) (M + 1) (length_recordWrites env M) N i hiN
  · intro hinj
    refine ⟨fun i hiN => updatesOf_records env M N hinj i hiN, ?_⟩
    have := people_runProducer_ok env ⟨N, M, dI, dU⟩ hc (by simpa using hi) (by simpa using hu)
      (by simpa using hinj)
    simp only [Int.toNat_natCast] at this
    exact this

theorem updates_per_record_witness :
    (runProducer Env.ideal ⟨((2 : Nat) : Int), ((3 : Nat) : Int), 0, 0⟩ World.init).world.people =
      [⟨100, "FirstName1", "LastName3", 0, 4⟩, ⟨101, "FirstName2", "LastName3", 5, 9⟩] ∧
    ((writes (runProducer Env.ideal ⟨((2 : Nat) : Int), ((3 : Nat) : Int), 0, 0⟩
      World.init).world.trace).filter Write.isUpdate).length = 2 * 3 :=
  ⟨((updates_per_record Env.ideal 2 3 0 0 rfl (fun _ _ => rfl) (fun _ _ _ _ => rfl)).2.2
      (fun a b _ _ h => by simpa [Env.ideal] using h)).2.trans (by decide),
   (updates_per_record Env.ideal 2 3 0 0 rfl (fun _ _ => rfl) (fun _ _ _ _ => rfl)).2.1⟩

end DocdbRepro
